import Mathlib

/-!
# Polyphonic sound synthesizer: note table, ADSR envelope, instruments, mixer

A shallow embedding of `src/main.cpp`.

* `double` values are elements of a linearly ordered field `α` (exact
  arithmetic, no rounding, no NaN).  The program's functions are computable
  at `α = ℚ`; the theorems hold for every such field, the reals included.
* Where rounding decides a claim (C9, C11), `envelope_adsr.amplitude_fl`
  repeats the envelope with the rounding of every operation explicit, and
  `binary64` is the rounding of doubles.
* The C library functions and the header constant `PI` that the program
  uses without defining them are the fields of `CMath`; `realMath` is the
  C library over the reals (real sine, arcsine, power, pi, and `c_fmod`).
* `rand()` is explicit state passing over the stream of values it will return.
* The global `vecNotes` is an explicit `List (note α)` passed in and out.
-/

set_option autoImplicit false

namespace synthesizer

/-- The items of `<cmath>`, `<cstdlib>` and `noiseMaker.h` the program calls
without defining: they are parameters of the model. -/
structure CMath (α : Type) where
  PI : α
  sin : α → α
  asin : α → α
  fmod : α → α → α
  pow : α → α → α
  RAND_MAX : Nat

/-- State of the C random number generator: the values the next calls of
`rand()` return, in order. -/
abbrev RandState : Type := Nat → Nat

/-- One call of `rand()`: the returned value and the state left behind. -/
def rand (g : RandState) : Nat × RandState :=
  (g 0, fun i => g (i + 1))

/-- The record `struct note` (lines 14-28); the field `on` is spelled `on_`
because `on` is a reserved word. -/
structure note (α : Type) where
  id : Int
  on_ : α
  off : α
  active : Bool
  channel : Int
deriving DecidableEq

/-- The function template `safe_remove` (lines 243-252): walk the vector and
erase every element on which `f` is false. -/
def safe_remove {α : Type} (f : note α → Bool) : List (note α) → List (note α)
  | [] => []
  | n :: v => if !f n then safe_remove f v else n :: safe_remove f v

section defs

variable {α : Type} [LinearOrderedField α]

/-- The constructor `note::note()`; `id = 0.5` is truncated to the integer 0. -/
def note.init : note α :=
  { id := 0, on_ := 0, off := 0, active := false, channel := 0 }

/-- Angular velocity `w` (lines 10-12). -/
def w (m : CMath α) (dHertz : α) : α :=
  dHertz * 2 * m.PI

/-- The `for` loop of the `OSC_SAW_ANALOGUE` case (lines 55-56), with the
iteration budget made explicit. -/
def osc_saw_loop (m : CMath α) (dFreq dCustom : α) : Nat → α → α → α
  | 0, _, dOutput => dOutput
  | fuel + 1, n, dOutput =>
    if n < dCustom then
      osc_saw_loop m dFreq dCustom fuel (n + 1) (dOutput + m.sin (n * dFreq) / n)
    else dOutput

/-- The general purpose oscillator `osc` (lines 37-68).  The waveform kinds
are the `#define`d integers 0..5.  The loop counter starts at 1 and grows by
1 while it is below `dCustom`, so `⌈dCustom⌉₊` iterations always suffice. -/
def osc [FloorRing α] (m : CMath α) (dTime dHertz : α) (nType : Int)
    (dLFOHertz dLFOAmplitude dCustom : α) (g : RandState) : α × RandState :=
  let dFreq := w m dHertz * dTime + dLFOAmplitude * dHertz * m.sin (w m dLFOHertz * dTime)
  if nType = 0 then (m.sin dFreq, g)
  else if nType = 1 then (if m.sin dFreq > 0 then 1 else -1, g)
  else if nType = 2 then (m.asin (m.sin dFreq) * (2 / m.PI), g)
  else if nType = 3 then
    (osc_saw_loop m dFreq dCustom ⌈dCustom⌉₊ 1 0 * (2 / m.PI), g)
  else if nType = 4 then
    ((2 / m.PI) * (dHertz * m.PI * m.fmod dTime (1 / dHertz) - m.PI / 2), g)
  else if nType = 5 then
    let r := rand g
    (2 * ((r.1 : α) / (m.RAND_MAX : α)) - 1, r.2)
  else (0, g)

/-- The constant `SCALE_BASE` (line 70). -/
def SCALE_BASE (m : CMath α) : α :=
  m.pow 2 (1 / 12)

/-- The constant `SCALE_DEFAULT` (line 71). -/
def SCALE_DEFAULT : Int := 0

/-- The pitch mapper `scale` (lines 73-78): both arms of the switch are the
same statement. -/
def scale (m : CMath α) (nNoteID : Int) (nScaleID : Int) : α :=
  if nScaleID = SCALE_DEFAULT then 256 * m.pow (SCALE_BASE m) (nNoteID : α)
  else 256 * m.pow (SCALE_BASE m) (nNoteID : α)

end defs

/-- The record `struct envelope_adsr` (lines 84-90). -/
structure envelope_adsr (α : Type) where
  dAttackTime : α
  dDecayTime : α
  dSustainAmplitude : α
  dReleaseTime : α
  dStartAmplitude : α

/-- The record `struct instrument` (lines 148-152). -/
structure instrument (α : Type) where
  dVolume : α
  env : envelope_adsr α

section defs2

variable {α : Type} [LinearOrderedField α]

/-- The constructor `envelope_adsr::envelope_adsr()` (lines 92-99). -/
def envelope_adsr.init : envelope_adsr α :=
  { dAttackTime := 0.1, dDecayTime := 0.1, dSustainAmplitude := 1.0,
    dReleaseTime := 0.2, dStartAmplitude := 1.0 }

/-- The method `envelope_adsr::amplitude` (lines 101-140).  The three `if`
statements of each branch are sequential, each one overwriting the variable
when its condition holds. -/
def envelope_adsr.amplitude (e : envelope_adsr α) (dTime dTimeOn dTimeOff : α) : α :=
  let dAmplitude : α := 0
  let dReleaseAmplitude : α := 0
  let dAmplitude : α :=
    if dTimeOn > dTimeOff then
      let dLifeTime := dTime - dTimeOn
      let dAmplitude :=
        if dLifeTime ≤ e.dAttackTime then (dLifeTime / e.dAttackTime) * e.dStartAmplitude
        else dAmplitude
      let dAmplitude :=
        if dLifeTime > e.dAttackTime ∧ dLifeTime ≤ e.dAttackTime + e.dDecayTime then
          ((dLifeTime - e.dAttackTime) / e.dDecayTime) * (e.dSustainAmplitude - e.dStartAmplitude)
            + e.dStartAmplitude
        else dAmplitude
      let dAmplitude :=
        if dLifeTime > e.dAttackTime + e.dDecayTime then e.dSustainAmplitude
        else dAmplitude
      dAmplitude
    else
      let dLifeTime := dTimeOff - dTimeOn
      let dReleaseAmplitude :=
        if dLifeTime ≤ e.dAttackTime then (dLifeTime / e.dAttackTime) * e.dStartAmplitude
        else dReleaseAmplitude
      let dReleaseAmplitude :=
        if dLifeTime > e.dAttackTime ∧ dLifeTime ≤ e.dAttackTime + e.dDecayTime then
          ((dLifeTime - e.dAttackTime) / e.dDecayTime) * (e.dSustainAmplitude - e.dStartAmplitude)
            + e.dStartAmplitude
        else dReleaseAmplitude
      let dReleaseAmplitude :=
        if dLifeTime > e.dAttackTime + e.dDecayTime then e.dSustainAmplitude
        else dReleaseAmplitude
      ((dTime - dTimeOff) / e.dReleaseTime) * (0 - dReleaseAmplitude) + dReleaseAmplitude
  if dAmplitude ≤ 0 then 0 else dAmplitude

/-- The function `env` (lines 143-145). -/
def env (dTime : α) (e : envelope_adsr α) (dTimeOn dTimeOff : α) : α :=
  e.amplitude dTime dTimeOn dTimeOff

/-- The global object `bell`, as built by `bell::bell()` (lines 156-163). -/
def bell : instrument α :=
  { dVolume := 1.0,
    env := { (envelope_adsr.init : envelope_adsr α) with
      dAttackTime := 0.01, dDecayTime := 1.0, dSustainAmplitude := 0.0, dReleaseTime := 1.0 } }

/-- The global object `harmonica`, as built by `harmonica::harmonica()`
(lines 181-187). -/
def harmonica : instrument α :=
  { dVolume := 1.0,
    env := { (envelope_adsr.init : envelope_adsr α) with
      dAttackTime := 0.05, dDecayTime := 1.0, dSustainAmplitude := 0.95, dReleaseTime := 0.1 } }

/-- The global object `piano`, as built by `piano::piano()` (lines 208-214). -/
def piano : instrument α :=
  { dVolume := 1.0,
    env := { (envelope_adsr.init : envelope_adsr α) with
      dAttackTime := 0.005, dDecayTime := 0.2, dSustainAmplitude := 0.6, dReleaseTime := 0.8 } }

variable [FloorRing α]

/-- The method `bell::sound` (lines 165-175).  The reference parameter
`bNoteFinished` is passed in and returned; it is only ever set to true. -/
def bell.sound (m : CMath α) (dTime : α) (n : note α) (bNoteFinished : Bool)
    (g : RandState) : α × Bool × RandState :=
  let dAmplitude := env dTime (bell : instrument α).env n.on_ n.off
  let bNoteFinished := if dAmplitude ≤ 0 then true else bNoteFinished
  let o1 := osc m (n.on_ - dTime) (scale m (n.id + 12) SCALE_DEFAULT) 0 5.0 0.001 50.0 g
  let o2 := osc m (n.on_ - dTime) (scale m (n.id + 24) SCALE_DEFAULT) 0 0.0 0.0 50.0 o1.2
  let o3 := osc m (n.on_ - dTime) (scale m (n.id + 36) SCALE_DEFAULT) 0 0.0 0.0 50.0 o2.2
  let dSound := 1.00 * o1.1 + 0.50 * o2.1 + 0.25 * o3.1
  (dAmplitude * dSound * (bell : instrument α).dVolume, bNoteFinished, o3.2)

/-- The method `harmonica::sound` (lines 189-202). -/
def harmonica.sound (m : CMath α) (dTime : α) (n : note α) (bNoteFinished : Bool)
    (g : RandState) : α × Bool × RandState :=
  let dAmplitude := env dTime (harmonica : instrument α).env n.on_ n.off
  let bNoteFinished := if dAmplitude ≤ 0 then true else bNoteFinished
  let o1 := osc m (n.on_ - dTime) (scale m (n.id - 3) SCALE_DEFAULT) 3 5.0 0.001 100 g
  let o2 := osc m (n.on_ - dTime) (scale m (n.id + 9) SCALE_DEFAULT) 1 5.0 0.001 50.0 o1.2
  let o3 := osc m (n.on_ - dTime) (scale m (n.id + 21) SCALE_DEFAULT) 1 0.0 0.0 50.0 o2.2
  let o4 := osc m (n.on_ - dTime) (scale m (n.id + 33) SCALE_DEFAULT) 5 0.0 0.0 50.0 o3.2
  let dSound := 1.0 * o1.1 + 1.0 * o2.1 + 0.5 * o3.1 + 0.05 * o4.1
  (dAmplitude * dSound * (harmonica : instrument α).dVolume, bNoteFinished, o4.2)

/-- The method `piano::sound` (lines 216-228). -/
def piano.sound (m : CMath α) (dTime : α) (n : note α) (bNoteFinished : Bool)
    (g : RandState) : α × Bool × RandState :=
  let dAmplitude := env dTime (piano : instrument α).env n.on_ n.off
  let bNoteFinished := if dAmplitude ≤ 0 then true else bNoteFinished
  let o1 := osc m (n.on_ - dTime) (scale m (n.id + 9) SCALE_DEFAULT) 0 0.0 0.0 50.0 g
  let o2 := osc m (n.on_ - dTime) (scale m (n.id + 21) SCALE_DEFAULT) 1 0.0 0.0 50.0 o1.2
  let o3 := osc m (n.on_ - dTime) (scale m (n.id + 33) SCALE_DEFAULT) 2 0.0 0.0 50.0 o2.2
  let dSound := 1.0 * o1.1 + 0.05 * o2.1 + 1.5 * o3.1
  (dAmplitude * dSound * (piano : instrument α).dVolume, bNoteFinished, o3.2)

/-- The range-based `for` loop of `makeNoise` (lines 259-273): the running
sum, the notes with their updated `active` flags, and the random state. -/
def makeNoise.loop (m : CMath α) (dTime : α) :
    List (note α) → α → RandState → α × List (note α) × RandState
  | [], dMixedOutput, g => (dMixedOutput, [], g)
  | n :: rest, dMixedOutput, g =>
    let bNoteFinished := false
    let dSound : α := 0
    let s1 : α × Bool × RandState :=
      if n.channel = 1 then
        let r := harmonica.sound m dTime n bNoteFinished g
        (r.1 * 0.5, r.2.1, r.2.2)
      else (dSound, bNoteFinished, g)
    let s2 : α × Bool × RandState :=
      if n.channel = 2 then bell.sound m dTime n s1.2.1 s1.2.2 else s1
    let s3 : α × Bool × RandState :=
      if n.channel = 3 then piano.sound m dTime n s2.2.1 s2.2.2 else s2
    let dMixedOutput := dMixedOutput + s3.1
    let n := if s3.2.1 = true ∧ n.off > n.on_ then { n with active := false } else n
    let r := makeNoise.loop m dTime rest dMixedOutput s3.2.2
    (r.1, n :: r.2.1, r.2.2)

/-- The audio callback `makeNoise` (lines 255-280): the returned sample, the
note table left in `vecNotes`, and the random state. -/
def makeNoise (m : CMath α) (nChannel : Int) (dTime : α) (vecNotes : List (note α))
    (g : RandState) : α × List (note α) × RandState :=
  let _unused := nChannel
  let r := makeNoise.loop m dTime vecNotes 0 g
  (r.1 * 0.2, safe_remove (fun item => item.active) r.2.1, r.2.2)

end defs2

section defs3

variable {α : Type} [LinearOrderedField α]

/-- The call of `find_if` (line 322): position and value of the first element
satisfying the predicate, `none` standing for `vecNotes.end()`. -/
def find_if (p : note α → Bool) : List (note α) → Option (Nat × note α)
  | [] => none
  | n :: v => if p n then some (0, n) else (find_if p v).map (fun r => (r.1 + 1, r.2))

/-- The body of the key loop of `main` (lines 319-351) for key `k` with the
polled state `nKeyState` (the 16 bits of the `short`) at time `dTimeNow`. -/
def main.pollKey (k : Int) (nKeyState : Nat) (dTimeNow : α) (vecNotes : List (note α)) :
    List (note α) :=
  match find_if (fun item => item.id == k) vecNotes with
  | none =>
    if nKeyState &&& 0x8000 ≠ 0 then
      let n : note α := note.init
      let n := { n with id := k }
      let n := { n with on_ := dTimeNow }
      let n := { n with channel := 1 }
      let n := { n with active := true }
      vecNotes ++ [n]
    else vecNotes
  | some (i, noteFound) =>
    if nKeyState &&& 0x8000 ≠ 0 then
      if noteFound.off > noteFound.on_ then
        vecNotes.set i { noteFound with on_ := dTimeNow, active := true }
      else vecNotes
    else
      if noteFound.off < noteFound.on_ then
        vecNotes.set i { noteFound with off := dTimeNow }
      else vecNotes

/-- The spec's `noteOn(id)`: the key-poll step with the key pressed. -/
def noteOn (id : Int) (now : α) (vecNotes : List (note α)) : List (note α) :=
  main.pollKey id 0x8000 now vecNotes

/-- The spec's `noteOff(id)`: the key-poll step with the key released. -/
def noteOff (id : Int) (now : α) (vecNotes : List (note α)) : List (note α) :=
  main.pollKey id 0 now vecNotes

/-- One atomic access to the note table: the two threads only touch
`vecNotes` while holding `muxNotes`, so every run is a sequence of these. -/
inductive Event (α : Type) where
  | noteOn (id : Int) (now : α)
  | noteOff (id : Int) (now : α)
  | render (nChannel : Int) (dTime : α)

/-- The attack/decay/sustain stage shared by both branches of
`envelope_adsr::amplitude` (lines 110-117 and 123-130): three sequential
`if` statements over a variable that starts at 0. -/
def adsr_stage (e : envelope_adsr α) (dLifeTime : α) : α :=
  let v : α := 0
  let v :=
    if dLifeTime ≤ e.dAttackTime then (dLifeTime / e.dAttackTime) * e.dStartAmplitude
    else v
  let v :=
    if dLifeTime > e.dAttackTime ∧ dLifeTime ≤ e.dAttackTime + e.dDecayTime then
      ((dLifeTime - e.dAttackTime) / e.dDecayTime) * (e.dSustainAmplitude - e.dStartAmplitude)
        + e.dStartAmplitude
    else v
  if dLifeTime > e.dAttackTime + e.dDecayTime then e.dSustainAmplitude else v

/-- The value of `bNoteFinished` when line 271 tests it for note `n`. -/
def noteFinished (dTime : α) (n : note α) : Bool :=
  (decide (n.channel = 1)
      && decide ((harmonica : instrument α).env.amplitude dTime n.on_ n.off ≤ 0))
  || (decide (n.channel = 2)
      && decide ((bell : instrument α).env.amplitude dTime n.on_ n.off ≤ 0))
  || (decide (n.channel = 3)
      && decide ((piano : instrument α).env.amplitude dTime n.on_ n.off ≤ 0))

/-- The note as the loop of `makeNoise` leaves it (lines 271-272). -/
def markFinished (dTime : α) (n : note α) : note α :=
  if noteFinished dTime n = true ∧ n.off > n.on_ then { n with active := false } else n

end defs3

section defs4

variable {α : Type} [LinearOrderedField α] [FloorRing α]

/-- One event applied to the shared state (note table and random state). -/
def step (m : CMath α) (s : List (note α) × RandState) : Event α → List (note α) × RandState
  | Event.noteOn id now => (noteOn id now s.1, s.2)
  | Event.noteOff id now => (noteOff id now s.1, s.2)
  | Event.render nChannel dTime =>
    let r := makeNoise m nChannel dTime s.1 s.2
    (r.2.1, r.2.2)

/-- A finite run of the program from a given state. -/
def run (m : CMath α) (s : List (note α) × RandState) (events : List (Event α)) :
    List (note α) × RandState :=
  events.foldl (step m) s

end defs4

/-- A concrete stand-in for the C library, for evaluating the model on
examples over the rationals. -/
def exampleMath : CMath ℚ :=
  { PI := 3, sin := fun _ => 0, asin := fun _ => 0, fmod := fun _ _ => 0,
    pow := fun _ _ => 1, RAND_MAX := 32767 }

/-- A concrete random state for examples: `rand()` always returns 0. -/
def exampleRand : RandState := fun _ => 0

/-- Example note: key 0, pressed at 1 and released at 2, on the harmonica. -/
def exampleReleased : note ℚ :=
  { id := 0, on_ := 1, off := 2, active := true, channel := 1 }

/-- Example note: key 1, pressed at 3 and not released, on the harmonica. -/
def exampleHeld : note ℚ :=
  { id := 1, on_ := 3, off := 0, active := true, channel := 1 }

/-- Example note: key 0 pressed and released at the same time 1. -/
def exampleStuck : note ℚ :=
  { id := 0, on_ := 1, off := 1, active := true, channel := 1 }

/-- Example envelope with a negative decay time. -/
def exampleNegativeDecay : envelope_adsr ℚ :=
  { dAttackTime := 1, dDecayTime := -2, dSustainAmplitude := 1, dReleaseTime := 1,
    dStartAmplitude := 1 }

section defs5

variable {α : Type} [LinearOrderedField α] [FloorRing α]

/-- The voice of one note as the spec words it: 0.5 times `harmonica.sound`
on channel 1, `bell.sound` on channel 2, `piano.sound` on channel 3 and 0 on
any other channel; with the random state the instrument leaves behind. -/
def voice (m : CMath α) (dTime : α) (n : note α) (g : RandState) : α × RandState :=
  if n.channel = 1 then
    let r := harmonica.sound m dTime n false g
    (0.5 * r.1, r.2.2)
  else if n.channel = 2 then
    let r := bell.sound m dTime n false g
    (r.1, r.2.2)
  else if n.channel = 3 then
    let r := piano.sound m dTime n false g
    (r.1, r.2.2)
  else (0, g)

/-- The spec's `sumOfVoices`: the sum of the voices of the notes of the
table, the random state passing from each note to the next. -/
def sumOfVoices (m : CMath α) (dTime : α) : List (note α) → RandState → α
  | [], _ => 0
  | n :: rest, g => (voice m dTime n g).1 + sumOfVoices m dTime rest (voice m dTime n g).2

end defs5

/-- The C library function `fmod` in exact arithmetic: `x - q * y` where `q`
is the quotient `x / y` truncated towards zero, so that the result has the
sign of `x`. -/
def c_fmod {α : Type} [LinearOrderedField α] [FloorRing α] (x y : α) : α :=
  x - (if 0 ≤ x / y then (⌊x / y⌋ : α) else (⌈x / y⌉ : α)) * y

/-- The C library over the real numbers: the mathematical functions that
`sin`, `asin`, `fmod` and `pow` approximate, the number pi for `PI`, and the
smallest value the C standard allows for `RAND_MAX`.  It is the one
definition that cannot be executed, the real sine not being computable. -/
noncomputable def realMath : CMath ℝ :=
  { PI := Real.pi, sin := Real.sin, asin := Real.arcsin, fmod := c_fmod,
    pow := fun x y => x ^ y, RAND_MAX := 32767 }

/-- Example chord: seven harmonica notes an octave apart (ids 3, 15, ..., 75),
all pressed at time 1 and still held. -/
def exampleChord {α : Type} [LinearOrderedField α] : List (note α) :=
  [{ id := 3, on_ := 1, off := 0, active := true, channel := 1 },
   { id := 15, on_ := 1, off := 0, active := true, channel := 1 },
   { id := 27, on_ := 1, off := 0, active := true, channel := 1 },
   { id := 39, on_ := 1, off := 0, active := true, channel := 1 },
   { id := 51, on_ := 1, off := 0, active := true, channel := 1 },
   { id := 63, on_ := 1, off := 0, active := true, channel := 1 },
   { id := 75, on_ := 1, off := 0, active := true, channel := 1 }]

/-! ### Rounded arithmetic

The envelope once more, with the rounding of every arithmetic operation made
explicit, and the rounding of IEEE 754 binary64 (`double`). -/

/-- The method `envelope_adsr::amplitude` (lines 101-140) with every
arithmetic operation rounded by `fl`, as a machine computes it: `fl` is the
identity for exact arithmetic and `binary64` for doubles.  Comparisons and
the assignment of a parameter are exact. -/
def envelope_adsr.amplitude_fl {α : Type} [LinearOrderedField α] (fl : α → α)
    (e : envelope_adsr α) (dTime dTimeOn dTimeOff : α) : α :=
  let dAmplitude : α := 0
  let dReleaseAmplitude : α := 0
  let dAmplitude : α :=
    if dTimeOn > dTimeOff then
      let dLifeTime := fl (dTime - dTimeOn)
      let dAmplitude :=
        if dLifeTime ≤ e.dAttackTime then
          fl (fl (dLifeTime / e.dAttackTime) * e.dStartAmplitude)
        else dAmplitude
      let dAmplitude :=
        if dLifeTime > e.dAttackTime ∧ dLifeTime ≤ fl (e.dAttackTime + e.dDecayTime) then
          fl (fl (fl (fl (dLifeTime - e.dAttackTime) / e.dDecayTime)
            * fl (e.dSustainAmplitude - e.dStartAmplitude)) + e.dStartAmplitude)
        else dAmplitude
      let dAmplitude :=
        if dLifeTime > fl (e.dAttackTime + e.dDecayTime) then e.dSustainAmplitude
        else dAmplitude
      dAmplitude
    else
      let dLifeTime := fl (dTimeOff - dTimeOn)
      let dReleaseAmplitude :=
        if dLifeTime ≤ e.dAttackTime then
          fl (fl (dLifeTime / e.dAttackTime) * e.dStartAmplitude)
        else dReleaseAmplitude
      let dReleaseAmplitude :=
        if dLifeTime > e.dAttackTime ∧ dLifeTime ≤ fl (e.dAttackTime + e.dDecayTime) then
          fl (fl (fl (fl (dLifeTime - e.dAttackTime) / e.dDecayTime)
            * fl (e.dSustainAmplitude - e.dStartAmplitude)) + e.dStartAmplitude)
        else dReleaseAmplitude
      let dReleaseAmplitude :=
        if dLifeTime > fl (e.dAttackTime + e.dDecayTime) then e.dSustainAmplitude
        else dReleaseAmplitude
      fl (fl (fl (fl (dTime - dTimeOff) / e.dReleaseTime) * fl (0 - dReleaseAmplitude))
        + dReleaseAmplitude)
  if dAmplitude ≤ 0 then 0 else dAmplitude

/-- Round to the nearest integer, a tie going to the even one. -/
def roundHalfEven (x : ℚ) : ℤ :=
  if x - ⌊x⌋ < 1 / 2 then ⌊x⌋
  else if 1 / 2 < x - ⌊x⌋ then ⌊x⌋ + 1
  else if ⌊x⌋ % 2 = 0 then ⌊x⌋ else ⌊x⌋ + 1

/-- The rounding of IEEE 754 binary64 (round to nearest, ties to even, 53
significant bits) applied to the exact result `x` of an operation.  The
exponent is not bounded: this is the `double` result whenever that result is
zero or has magnitude in the normal range, from 2^-1022 up to 2^1024. -/
def binary64 (x : ℚ) : ℚ :=
  if x = 0 then 0
  else (roundHalfEven (x / 2 ^ (Int.log 2 |x| - 52)) : ℚ) * 2 ^ (Int.log 2 |x| - 52)

/-- The `double` nearest to 0.01. -/
def d0_01 : ℚ := 5764607523034235 / 576460752303423488

/-- The `double` nearest to 0.12. -/
def d0_12 : ℚ := 1080863910568919 / 9007199254740992

/-- The `double` nearest to 0.13. -/
def d0_13 : ℚ := 1170935903116329 / 9007199254740992

/-- Example envelope in doubles: attack 0.01, decay 0.12, release 1.0, start
amplitude 1.0 and the given sustain amplitude. -/
def exampleRounding (dSustainAmplitude : ℚ) : envelope_adsr ℚ :=
  { dAttackTime := d0_01, dDecayTime := d0_12, dSustainAmplitude := dSustainAmplitude,
    dReleaseTime := 1, dStartAmplitude := 1 }

/-! ## Lists: `safe_remove`, `find_if` and positional update -/

section list_lemmas

variable {α : Type}

theorem safe_remove_eq_filter (f : note α → Bool) (v : List (note α)) :
    safe_remove f v = v.filter f := by
  induction v with
  | nil => rfl
  | cons n v ih =>
    by_cases h : f n = true
    · simp [safe_remove, h, ih]
    · simp [safe_remove, h, ih]

theorem find_if_none (p : note α → Bool) (v : List (note α))
    (h : ∀ n ∈ v, p n = false) : find_if p v = none := by
  induction v with
  | nil => rfl
  | cons n v ih =>
    have hn : p n = false := h n (List.mem_cons_self _ _)
    have hv : ∀ x ∈ v, p x = false := fun x hx => h x (List.mem_cons_of_mem _ hx)
    simp [find_if, hn, ih hv]

theorem find_if_first (p : note α → Bool) (pre : List (note α)) (n : note α)
    (post : List (note α)) (hpre : ∀ x ∈ pre, p x = false) (hn : p n = true) :
    find_if p (pre ++ n :: post) = some (pre.length, n) := by
  induction pre with
  | nil => simp [find_if, hn]
  | cons a pre ih =>
    have ha : p a = false := hpre a (List.mem_cons_self _ _)
    have hv : ∀ x ∈ pre, p x = false := fun x hx => hpre x (List.mem_cons_of_mem _ hx)
    simp [find_if, ha, ih hv]

theorem find_if_cases (p : note α → Bool) (v : List (note α)) :
    (find_if p v = none ∧ ∀ n ∈ v, p n = false) ∨
    ∃ pre n post, v = pre ++ n :: post ∧ (∀ x ∈ pre, p x = false) ∧ p n = true ∧
      find_if p v = some (pre.length, n) := by
  induction v with
  | nil => left; exact ⟨rfl, fun n hn => absurd hn (List.not_mem_nil n)⟩
  | cons a v ih =>
    by_cases ha : p a = true
    · right
      exact ⟨[], a, v, rfl, fun x hx => absurd hx (List.not_mem_nil x), ha, by simp [find_if, ha]⟩
    · have ha0 : p a = false := by simpa using ha
      rcases ih with ⟨h1, h2⟩ | ⟨pre, n, post, h1, h2, h3, _⟩
      · left
        refine ⟨by simp [find_if, ha0, h1], ?_⟩
        intro x hx
        rcases List.mem_cons.mp hx with rfl | hx
        · exact ha0
        · exact h2 x hx
      · right
        have hpre : ∀ x ∈ a :: pre, p x = false := by
          intro x hx
          rcases List.mem_cons.mp hx with rfl | hx
          · exact ha0
          · exact h2 x hx
        refine ⟨a :: pre, n, post, by simp [h1], hpre, h3, ?_⟩
        rw [h1]
        exact find_if_first p (a :: pre) n post hpre h3

theorem set_at_split (pre : List (note α)) (n x : note α) (post : List (note α)) :
    (pre ++ n :: post).set pre.length x = pre ++ x :: post := by
  induction pre with
  | nil => rfl
  | cons a pre ih => simp [List.set, ih]

theorem countP_id_le_one_of_nodup (v : List (note α)) (h : (v.map note.id).Nodup) (k : Int) :
    List.countP (fun n => n.id == k) v ≤ 1 := by
  have h1 := List.nodup_iff_count_le_one.mp h k
  rw [List.count, List.countP_map] at h1
  exact h1

end list_lemmas

/-! ## The ADSR envelope -/

section envelope_lemmas

variable {α : Type} [LinearOrderedField α]

theorem amplitude_eq (e : envelope_adsr α) (dTime dTimeOn dTimeOff : α) :
    e.amplitude dTime dTimeOn dTimeOff =
      max 0 (if dTimeOn > dTimeOff then adsr_stage e (dTime - dTimeOn)
        else ((dTime - dTimeOff) / e.dReleaseTime) * (0 - adsr_stage e (dTimeOff - dTimeOn))
          + adsr_stage e (dTimeOff - dTimeOn)) := by
  unfold envelope_adsr.amplitude adsr_stage
  simp only [max_def]
  by_cases h : dTimeOn > dTimeOff
  · simp only [h, if_true]
    split_ifs <;> first | rfl | (exfalso; linarith) | linarith
  · simp only [h, if_false]
    split_ifs <;> first | rfl | (exfalso; linarith) | linarith

theorem amplitude_nonneg (e : envelope_adsr α) (dTime dTimeOn dTimeOff : α) :
    0 ≤ e.amplitude dTime dTimeOn dTimeOff := by
  rw [amplitude_eq]; exact le_max_left _ _

theorem amplitude_le_zero_iff (e : envelope_adsr α) (dTime dTimeOn dTimeOff : α) :
    e.amplitude dTime dTimeOn dTimeOff ≤ 0 ↔ e.amplitude dTime dTimeOn dTimeOff = 0 :=
  ⟨fun h => le_antisymm h (amplitude_nonneg e _ _ _), fun h => le_of_eq h⟩

theorem adsr_stage_attack (e : envelope_adsr α) (life : α) (hD : 0 ≤ e.dDecayTime)
    (h : life ≤ e.dAttackTime) :
    adsr_stage e life = (life / e.dAttackTime) * e.dStartAmplitude := by
  unfold adsr_stage
  have h1 : ¬ (life > e.dAttackTime) := not_lt.mpr h
  have h2 : ¬ (life > e.dAttackTime + e.dDecayTime) := by
    intro h3; linarith
  simp [h, h1, h2]

theorem decay_segment_nonneg (A D S U life : α) (hD : 0 < D) (h1 : A < life)
    (h2 : life ≤ A + D) (hS : 0 ≤ S) (hU : 0 ≤ U) :
    0 ≤ ((life - A) / D) * (U - S) + S := by
  have hx : 0 ≤ (life - A) / D := div_nonneg (by linarith) hD.le
  have hx1 : (life - A) / D ≤ 1 := by
    rw [div_le_one hD]; linarith
  nlinarith

theorem adsr_stage_nonneg (e : envelope_adsr α) (life : α)
    (hA : 0 < e.dAttackTime) (hD : 0 < e.dDecayTime) (hS : 0 ≤ e.dStartAmplitude)
    (hU : 0 ≤ e.dSustainAmplitude) (hl : 0 ≤ life) : 0 ≤ adsr_stage e life := by
  unfold adsr_stage
  simp only []
  split_ifs with h1 h2 h3
  · exact hU
  · exact decay_segment_nonneg _ _ _ _ _ hD h2.1 h2.2 hS hU
  · exact mul_nonneg (div_nonneg hl hA.le) hS
  · exact le_refl 0

/-- A note whose on and off times coincide has amplitude 0 at every time,
whenever the decay time is not negative. -/
theorem amplitude_on_eq_off (e : envelope_adsr α) (dTime t : α) (hA : 0 ≤ e.dAttackTime)
    (hD : 0 ≤ e.dDecayTime) : e.amplitude dTime t t = 0 := by
  rw [amplitude_eq]
  simp only [gt_iff_lt, lt_irrefl, if_false, sub_self]
  rw [adsr_stage_attack e 0 hD hA]
  simp

end envelope_lemmas

/-! ## The mixer and the key-poll step -/

section poll_lemmas

variable {α : Type} [LinearOrderedField α]

theorem noteFinished_iff (dTime : α) (n : note α) :
    noteFinished dTime n = true ↔
      ((n.channel = 1 ∧ (harmonica : instrument α).env.amplitude dTime n.on_ n.off = 0) ∨
       (n.channel = 2 ∧ (bell : instrument α).env.amplitude dTime n.on_ n.off = 0) ∨
       (n.channel = 3 ∧ (piano : instrument α).env.amplitude dTime n.on_ n.off = 0)) := by
  unfold noteFinished
  simp only [Bool.or_eq_true, Bool.and_eq_true, decide_eq_true_eq, amplitude_le_zero_iff,
    or_assoc]

theorem markFinished_id (dTime : α) (n : note α) : (markFinished dTime n).id = n.id := by
  unfold markFinished
  split_ifs <;> rfl

theorem pollKey_ids_nodup (k : Int) (nKeyState : Nat) (dTimeNow : α) (v : List (note α))
    (h : (v.map note.id).Nodup) :
    ((main.pollKey k nKeyState dTimeNow v).map note.id).Nodup := by
  rcases find_if_cases (fun item : note α => item.id == k) v with
    ⟨hf, hall⟩ | ⟨pre, n, post, hv, _, _, hf⟩
  · simp only [main.pollKey, hf]
    split_ifs
    · rw [List.map_append, List.nodup_append]
      refine ⟨h, List.nodup_singleton _, ?_⟩
      intro a ha hb
      simp only [List.map_cons, List.map_nil, List.mem_singleton] at hb
      obtain ⟨x, hx, rfl⟩ := List.mem_map.mp ha
      have := hall x hx
      simp only [beq_eq_false_iff_ne, ne_eq] at this
      exact this hb
    · exact h
  · simp only [main.pollKey, hf]
    subst hv
    split_ifs
    · rw [set_at_split]; simpa using h
    · exact h
    · rw [set_at_split]; simpa using h
    · exact h

end poll_lemmas

section table_lemmas

variable {α : Type} [LinearOrderedField α] [FloorRing α]

theorem harmonica_sound_flag (m : CMath α) (dTime : α) (n : note α) (b : Bool) (g : RandState) :
    (harmonica.sound m dTime n b g).2.1 =
      (decide ((harmonica : instrument α).env.amplitude dTime n.on_ n.off ≤ 0) || b) := by
  by_cases h : (harmonica : instrument α).env.amplitude dTime n.on_ n.off ≤ 0
  · simp [harmonica.sound, env, h]
  · simp [harmonica.sound, env, h]

theorem bell_sound_flag (m : CMath α) (dTime : α) (n : note α) (b : Bool) (g : RandState) :
    (bell.sound m dTime n b g).2.1 =
      (decide ((bell : instrument α).env.amplitude dTime n.on_ n.off ≤ 0) || b) := by
  by_cases h : (bell : instrument α).env.amplitude dTime n.on_ n.off ≤ 0
  · simp [bell.sound, env, h]
  · simp [bell.sound, env, h]

theorem piano_sound_flag (m : CMath α) (dTime : α) (n : note α) (b : Bool) (g : RandState) :
    (piano.sound m dTime n b g).2.1 =
      (decide ((piano : instrument α).env.amplitude dTime n.on_ n.off ≤ 0) || b) := by
  by_cases h : (piano : instrument α).env.amplitude dTime n.on_ n.off ≤ 0
  · simp [piano.sound, env, h]
  · simp [piano.sound, env, h]

theorem makeNoise_loop_notes (m : CMath α) (dTime : α) (v : List (note α)) :
    ∀ (acc : α) (g : RandState),
      (makeNoise.loop m dTime v acc g).2.1 = v.map (markFinished dTime) := by
  induction v with
  | nil => intro acc g; rfl
  | cons n v ih =>
    intro acc g
    simp only [makeNoise.loop, List.map_cons, ih]
    congr 1
    unfold markFinished noteFinished
    by_cases h1 : n.channel = 1
    · have h2 : ¬ n.channel = 2 := by omega
      have h3 : ¬ n.channel = 3 := by omega
      simp [h1, harmonica_sound_flag]
    · by_cases h2 : n.channel = 2
      · have h3 : ¬ n.channel = 3 := by omega
        simp [h1, h2, bell_sound_flag]
      · by_cases h3 : n.channel = 3
        · simp [h1, h2, h3, piano_sound_flag]
        · simp [h1, h2, h3]

theorem makeNoise_notes (m : CMath α) (nChannel : Int) (dTime : α) (v : List (note α))
    (g : RandState) :
    (makeNoise m nChannel dTime v g).2.1 =
      (v.map (markFinished dTime)).filter (fun item => item.active) := by
  simp only [makeNoise, makeNoise_loop_notes, safe_remove_eq_filter]

theorem mem_makeNoise_iff (m : CMath α) (nChannel : Int) (dTime : α) (v : List (note α))
    (g : RandState) (n : note α) :
    n ∈ (makeNoise m nChannel dTime v g).2.1 ↔
      n ∈ v ∧ n.active = true ∧ ¬ (noteFinished dTime n = true ∧ n.off > n.on_) := by
  rw [makeNoise_notes]
  simp only [List.mem_filter, List.mem_map]
  constructor
  · rintro ⟨⟨a, ha, rfl⟩, hact⟩
    unfold markFinished at hact ⊢
    split_ifs at hact ⊢ with hc
    exact ⟨ha, hact, hc⟩
  · rintro ⟨hn, hact, hc⟩
    refine ⟨⟨n, hn, ?_⟩, hact⟩
    unfold markFinished
    rw [if_neg hc]

theorem makeNoise_ids_nodup (m : CMath α) (nChannel : Int) (dTime : α) (v : List (note α))
    (g : RandState) (h : (v.map note.id).Nodup) :
    ((makeNoise m nChannel dTime v g).2.1.map note.id).Nodup := by
  rw [makeNoise_notes]
  have hs : List.Sublist (((v.map (markFinished dTime)).filter (fun item => item.active)).map
      note.id) ((v.map (markFinished dTime)).map note.id) :=
    List.Sublist.map _ (List.filter_sublist _)
  have he : (v.map (markFinished dTime)).map note.id = v.map note.id := by
    rw [List.map_map]
    apply List.map_congr_left
    intro a _
    exact markFinished_id dTime a
  rw [he] at hs
  exact List.Nodup.sublist hs h

theorem run_ids_nodup (m : CMath α) (events : List (Event α)) :
    ∀ s : List (note α) × RandState, (s.1.map note.id).Nodup →
      ((run m s events).1.map note.id).Nodup := by
  induction events with
  | nil => intro s h; exact h
  | cons ev events ih =>
    intro s h
    have hstep : ((step m s ev).1.map note.id).Nodup := by
      cases ev with
      | noteOn id now => exact pollKey_ids_nodup id _ now s.1 h
      | noteOff id now => exact pollKey_ids_nodup id _ now s.1 h
      | render nChannel dTime => exact makeNoise_ids_nodup m nChannel dTime s.1 s.2 h
    exact ih (step m s ev) hstep

end table_lemmas

/-! ## The claims -/

section claims

/-- C2: an active note that is held (`on > off`) is still in the table after
`makeNoise`, at every render time, whatever its envelope amplitude is. -/
theorem C2_held_note_never_pruned {α : Type} [LinearOrderedField α] [FloorRing α]
    (m : CMath α) (nChannel : Int) (dTime : α)
    (vecNotes : List (note α)) (g : RandState) (n : note α) (hn : n ∈ vecNotes)
    (hactive : n.active = true) (hheld : n.on_ > n.off) :
    n ∈ (makeNoise m nChannel dTime vecNotes g).2.1 := by
  rw [mem_makeNoise_iff]
  exact ⟨hn, hactive, fun hc => absurd hc.2 (not_lt.mpr hheld.le)⟩

/-- C2 at a concrete table: the held note of key 1 (on 3) survives a render
at time 3, where its envelope amplitude is 0. -/
theorem C2_held_note_never_pruned_witness :
    (harmonica : instrument ℚ).env.amplitude 3 exampleHeld.on_ exampleHeld.off = 0 ∧
    exampleHeld ∈ (makeNoise exampleMath 0 3 [exampleReleased, exampleHeld] exampleRand).2.1 :=
  ⟨by norm_num [envelope_adsr.amplitude, harmonica, envelope_adsr.init, exampleHeld],
   C2_held_note_never_pruned exampleMath 0 3 [exampleReleased, exampleHeld] exampleRand
     exampleHeld (List.mem_cons_of_mem _ (List.mem_cons_self _ _)) rfl
     (by norm_num [exampleHeld])⟩

/-- C3: starting from the empty note table, after any finite sequence of
`noteOn`, `noteOff` and `makeNoise` steps with arbitrary ids, times, channel
arguments and random values, the table holds at most one note for each id. -/
theorem C3_at_most_one_note_per_id {α : Type} [LinearOrderedField α] [FloorRing α]
    (m : CMath α) (g : RandState) (events : List (Event α))
    (k : Int) :
    List.countP (fun n => n.id == k) (run m ([], g) events).1 ≤ 1 :=
  countP_id_le_one_of_nodup _ (run_ids_nodup m events ([], g) List.nodup_nil) k

/-- What line 339 does do: when the first note with the given id has
`off > on`, `noteOn` sets that note's on time to `now` and `active` to true,
changes nothing else, and so leaves the number of notes unchanged. -/
theorem noteOn_rearms_note_with_off_gt_on {α : Type} [LinearOrderedField α]
    (id : Int) (now : α) (pre : List (note α))
    (n : note α) (post : List (note α))
    (hpre : ∀ x ∈ pre, x.id ≠ id) (hid : n.id = id) (hrel : n.off > n.on_) :
    noteOn id now (pre ++ n :: post) = pre ++ { n with on_ := now, active := true } :: post ∧
    (noteOn id now (pre ++ n :: post)).length = (pre ++ n :: post).length := by
  have hf : find_if (fun item : note α => item.id == id) (pre ++ n :: post)
      = some (pre.length, n) :=
    find_if_first _ pre n post (fun x hx => by simpa using hpre x hx) (by simpa using hid)
  have h1 : noteOn id now (pre ++ n :: post)
      = pre ++ { n with on_ := now, active := true } :: post := by
    simp only [noteOn, main.pollKey, hf]
    rw [if_pos (by decide), if_pos hrel, set_at_split]
  exact ⟨h1, by rw [h1]; simp⟩

/-- The re-arming at a concrete table: key 0 released at 2 is re-armed at 5. -/
theorem noteOn_rearms_note_with_off_gt_on_witness :
    noteOn 0 5 ([exampleHeld] ++ exampleReleased :: [])
      = [exampleHeld] ++ { exampleReleased with on_ := 5, active := true } :: [] ∧
    (noteOn 0 5 ([exampleHeld] ++ exampleReleased :: [])).length
      = ([exampleHeld] ++ exampleReleased :: []).length :=
  noteOn_rearms_note_with_off_gt_on 0 5 [exampleHeld] exampleReleased []
    (by simp [exampleHeld]) rfl (by norm_num [exampleReleased])

/-- C4, the code at the failing input: the note of key 0 with on = off = 1
(reached by `noteOn` and `noteOff` at time 1) is releasing (`off >= on`, and
the envelope takes its `note is off` branch for it), yet `noteOn 0 2` leaves
the table as it is: the on time stays 1 and the note is not re-armed. -/
theorem C4_noteOn_ignores_note_with_on_eq_off :
    noteOff 0 1 (noteOn 0 1 ([] : List (note ℚ))) = [exampleStuck] ∧
    exampleStuck.id = 0 ∧ exampleStuck.off ≥ exampleStuck.on_ ∧
    noteOn 0 2 [exampleStuck] = [exampleStuck] ∧
    (noteOn 0 2 [exampleStuck]).map note.on_ ≠ [2] := by
  have h1 : noteOn 0 2 [exampleStuck] = [exampleStuck] := by
    simp [noteOn, main.pollKey, find_if, exampleStuck]
  refine ⟨?_, rfl, ?_, h1, ?_⟩
  · simp [noteOn, noteOff, main.pollKey, find_if, note.init, exampleStuck]
  · norm_num [exampleStuck]
  · rw [h1]; norm_num [exampleStuck]

/-- C5: on a table with no note of the given id, `noteOn` yields the old
table followed by exactly one new note with that id, on = now, off = 0,
channel = 1 and active = true. -/
theorem C5_noteOn_inserts_new_note {α : Type} [LinearOrderedField α]
    (id : Int) (now : α) (vecNotes : List (note α))
    (h : ∀ n ∈ vecNotes, n.id ≠ id) :
    noteOn id now vecNotes =
      vecNotes ++ [{ id := id, on_ := now, off := 0, active := true, channel := 1 }] := by
  have hf : find_if (fun item : note α => item.id == id) vecNotes = none :=
    find_if_none _ _ (fun n hn => by simpa using h n hn)
  simp [noteOn, main.pollKey, hf, note.init]

/-- C5 at a concrete table: key 7 pressed at time 4 beside two other notes. -/
theorem C5_noteOn_inserts_new_note_witness :
    noteOn 7 4 [exampleReleased, exampleHeld] =
      [exampleReleased, exampleHeld]
        ++ [{ id := 7, on_ := 4, off := 0, active := true, channel := 1 }] :=
  C5_noteOn_inserts_new_note 7 4 [exampleReleased, exampleHeld]
    (by simp [exampleReleased, exampleHeld])

/-- C6: `noteOff` sets off = now on the first note with the given id when
that note is on (`on > off`), changing no other field and no other note;
when that note is not on, or no note has that id, the table is unchanged. -/
theorem C6_noteOff_frame {α : Type} [LinearOrderedField α]
    (id : Int) (now : α) :
    (∀ (pre : List (note α)) (n : note α) (post : List (note α)),
      (∀ x ∈ pre, x.id ≠ id) → n.id = id → n.on_ > n.off →
        noteOff id now (pre ++ n :: post) = pre ++ { n with off := now } :: post) ∧
    (∀ (pre : List (note α)) (n : note α) (post : List (note α)),
      (∀ x ∈ pre, x.id ≠ id) → n.id = id → ¬ n.on_ > n.off →
        noteOff id now (pre ++ n :: post) = pre ++ n :: post) ∧
    (∀ vecNotes : List (note α), (∀ x ∈ vecNotes, x.id ≠ id) →
        noteOff id now vecNotes = vecNotes) := by
  refine ⟨?_, ?_, ?_⟩
  · intro pre n post hpre hid hon
    have hf : find_if (fun item : note α => item.id == id) (pre ++ n :: post)
        = some (pre.length, n) :=
      find_if_first _ pre n post (fun x hx => by simpa using hpre x hx) (by simpa using hid)
    simp only [noteOff, main.pollKey, hf]
    rw [if_neg (by decide), if_pos hon, set_at_split]
  · intro pre n post hpre hid hon
    have hf : find_if (fun item : note α => item.id == id) (pre ++ n :: post)
        = some (pre.length, n) :=
      find_if_first _ pre n post (fun x hx => by simpa using hpre x hx) (by simpa using hid)
    simp only [noteOff, main.pollKey, hf]
    rw [if_neg (by decide), if_neg hon]
  · intro vecNotes h
    have hf : find_if (fun item : note α => item.id == id) vecNotes = none :=
      find_if_none _ _ (fun n hn => by simpa using h n hn)
    simp only [noteOff, main.pollKey, hf]
    rw [if_neg (by decide)]

/-- C6 at a concrete table: releasing key 1 at time 9 stamps the held note,
releasing key 0 (already released) or key 5 (absent) changes nothing. -/
theorem C6_noteOff_frame_witness :
    noteOff 1 9 ([exampleReleased] ++ exampleHeld :: [])
      = [exampleReleased] ++ { exampleHeld with off := 9 } :: [] ∧
    noteOff 0 9 ([] ++ exampleReleased :: [exampleHeld])
      = [] ++ exampleReleased :: [exampleHeld] ∧
    noteOff 5 9 [exampleReleased, exampleHeld] = [exampleReleased, exampleHeld] :=
  ⟨(C6_noteOff_frame 1 9).1 [exampleReleased] exampleHeld []
      (by simp [exampleReleased]) rfl (by norm_num [exampleHeld]),
   (C6_noteOff_frame 0 9).2.1 [] exampleReleased [exampleHeld]
      (by simp) rfl (by norm_num [exampleReleased]),
   (C6_noteOff_frame 5 9).2.2 [exampleReleased, exampleHeld]
      (by simp [exampleReleased, exampleHeld])⟩

/-- C7, the code at the failing input: after `noteOn 0 1` and `noteOff 0 1`
on the empty table the note is in the table with on = off = 1; its release
envelope (harmonica, channel 1) has amplitude 0 at every render time, and yet
`makeNoise` never removes it. -/
theorem C7_same_timestamp_note_is_never_pruned :
    noteOff 0 1 (noteOn 0 1 ([] : List (note ℚ))) = [exampleStuck] ∧
    ∀ (m : CMath ℚ) (nChannel : Int) (g : RandState) (dTime : ℚ),
      (harmonica : instrument ℚ).env.amplitude dTime exampleStuck.on_ exampleStuck.off = 0 ∧
      (makeNoise m nChannel dTime [exampleStuck] g).2.1 = [exampleStuck] := by
  refine ⟨?_, ?_⟩
  · simp [noteOn, noteOff, main.pollKey, find_if, note.init, exampleStuck]
  · intro m nChannel g dTime
    refine ⟨?_, ?_⟩
    · exact amplitude_on_eq_off _ dTime 1 (by norm_num [harmonica, envelope_adsr.init])
        (by norm_num [harmonica, envelope_adsr.init])
    · rw [makeNoise_notes]
      simp [markFinished, exampleStuck]

/-- C8, the code at the failing input: `noteOn 5 0` on the empty table creates
the note with on = 0 and off = 0, and the piano envelope evaluated with these
times at time 0.005 returns 0, while the start amplitude is 1. -/
theorem C8_piano_amplitude_at_attack_end_is_zero :
    noteOn 5 0 ([] : List (note ℚ))
      = [{ id := 5, on_ := 0, off := 0, active := true, channel := 1 }] ∧
    (piano : instrument ℚ).env.dAttackTime = 0.005 ∧
    (piano : instrument ℚ).env.dStartAmplitude = 1 ∧
    (piano : instrument ℚ).env.amplitude 0.005 0 0 = 0 := by
  refine ⟨?_, rfl, ?_, ?_⟩
  · simp [noteOn, main.pollKey, find_if, note.init]
  · norm_num [piano, envelope_adsr.init]
  · norm_num [envelope_adsr.amplitude, piano, envelope_adsr.init]

/-- In exact arithmetic (no rounding): for attack, decay, release > 0, start,
sustain >= 0 and a released note (on <= off), the amplitude is non-increasing
in the time for times after off, is never negative, and is exactly 0 from
off + release on. -/
theorem release_exact_arithmetic {α : Type} [LinearOrderedField α]
    (e : envelope_adsr α) (dTimeOn dTimeOff : α)
    (hA : 0 < e.dAttackTime) (hD : 0 < e.dDecayTime) (hR : 0 < e.dReleaseTime)
    (hS : 0 ≤ e.dStartAmplitude) (hU : 0 ≤ e.dSustainAmplitude) (h : dTimeOn ≤ dTimeOff) :
    (∀ t1 t2 : α, dTimeOff < t1 → t1 ≤ t2 →
        e.amplitude t2 dTimeOn dTimeOff ≤ e.amplitude t1 dTimeOn dTimeOff) ∧
    (∀ t : α, 0 ≤ e.amplitude t dTimeOn dTimeOff) ∧
    (∀ t : α, dTimeOff + e.dReleaseTime ≤ t → e.amplitude t dTimeOn dTimeOff = 0) := by
  have hr : 0 ≤ adsr_stage e (dTimeOff - dTimeOn) :=
    adsr_stage_nonneg e _ hA hD hS hU (by linarith)
  have hn : ¬ (dTimeOn > dTimeOff) := not_lt.mpr h
  refine ⟨?_, fun t => amplitude_nonneg e t _ _, ?_⟩
  · intro t1 t2 _ h12
    rw [amplitude_eq, amplitude_eq]
    simp only [hn, if_false]
    apply max_le_max (le_refl 0)
    have hq : (t1 - dTimeOff) / e.dReleaseTime ≤ (t2 - dTimeOff) / e.dReleaseTime :=
      div_le_div_of_nonneg_right (by linarith) hR.le
    nlinarith
  · intro t ht
    rw [amplitude_eq]
    simp only [hn, if_false]
    apply max_eq_left
    have hq : 1 ≤ (t - dTimeOff) / e.dReleaseTime := by
      rw [one_le_div hR]; linarith
    nlinarith

/-- The exact release at the piano envelope, for a note pressed at 1 and
released at 2: the amplitude is 0.6 at the release, 0.3 half way, and 0 at
2 + 0.8. -/
theorem release_exact_arithmetic_witness :
    ((∀ t1 t2 : ℚ, 2 < t1 → t1 ≤ t2 →
        (piano : instrument ℚ).env.amplitude t2 1 2
          ≤ (piano : instrument ℚ).env.amplitude t1 1 2) ∧
     (∀ t : ℚ, 0 ≤ (piano : instrument ℚ).env.amplitude t 1 2) ∧
     (∀ t : ℚ, 2 + (piano : instrument ℚ).env.dReleaseTime ≤ t →
        (piano : instrument ℚ).env.amplitude t 1 2 = 0)) ∧
    (piano : instrument ℚ).env.amplitude 2 1 2 = 0.6 ∧
    (piano : instrument ℚ).env.amplitude 2.4 1 2 = 0.3 ∧
    (piano : instrument ℚ).env.amplitude 2.8 1 2 = 0 :=
  ⟨release_exact_arithmetic (piano : instrument ℚ).env 1 2
      (by norm_num [piano, envelope_adsr.init]) (by norm_num [piano, envelope_adsr.init])
      (by norm_num [piano, envelope_adsr.init]) (by norm_num [piano, envelope_adsr.init])
      (by norm_num [piano, envelope_adsr.init]) (by norm_num),
   by norm_num [envelope_adsr.amplitude, piano, envelope_adsr.init],
   by norm_num [envelope_adsr.amplitude, piano, envelope_adsr.init],
   by norm_num [envelope_adsr.amplitude, piano, envelope_adsr.init]⟩

/-- C10 as amended: for attack > 0, decay >= 0, start >= 0 and a held note
(on > off), the amplitude is 0 at time on, is non-decreasing in the time over
on <= t <= on + attack, and equals the start amplitude at on + attack. -/
theorem C10_attack_ramp {α : Type} [LinearOrderedField α]
    (e : envelope_adsr α) (dTimeOn dTimeOff : α)
    (hA : 0 < e.dAttackTime) (hD : 0 ≤ e.dDecayTime) (hS : 0 ≤ e.dStartAmplitude)
    (h : dTimeOn > dTimeOff) :
    e.amplitude dTimeOn dTimeOn dTimeOff = 0 ∧
    (∀ t1 t2 : α, dTimeOn ≤ t1 → t1 ≤ t2 → t2 ≤ dTimeOn + e.dAttackTime →
        e.amplitude t1 dTimeOn dTimeOff ≤ e.amplitude t2 dTimeOn dTimeOff) ∧
    e.amplitude (dTimeOn + e.dAttackTime) dTimeOn dTimeOff = e.dStartAmplitude := by
  refine ⟨?_, ?_, ?_⟩
  · rw [amplitude_eq]
    simp only [h, if_true]
    rw [adsr_stage_attack e _ hD (by linarith)]
    simp
  · intro t1 t2 h1 h12 h2
    rw [amplitude_eq, amplitude_eq]
    simp only [h, if_true]
    rw [adsr_stage_attack e _ hD (by linarith), adsr_stage_attack e _ hD (by linarith)]
    apply max_le_max (le_refl 0)
    apply mul_le_mul_of_nonneg_right _ hS
    exact div_le_div_of_nonneg_right (by linarith) hA.le
  · rw [amplitude_eq]
    simp only [h, if_true]
    rw [adsr_stage_attack e _ hD (by linarith)]
    have : (dTimeOn + e.dAttackTime - dTimeOn) / e.dAttackTime = 1 := by
      rw [add_sub_cancel_left]; exact div_self hA.ne.symm
    rw [this, one_mul]
    exact max_eq_right hS

/-- C10 as amended, at the bell envelope for a note pressed at 1 and not
released: amplitude 0 at 1, one half at 1.005, and 1 at 1.01. -/
theorem C10_attack_ramp_witness :
    ((bell : instrument ℚ).env.amplitude 1 1 0 = 0 ∧
     (∀ t1 t2 : ℚ, 1 ≤ t1 → t1 ≤ t2 → t2 ≤ 1 + (bell : instrument ℚ).env.dAttackTime →
        (bell : instrument ℚ).env.amplitude t1 1 0
          ≤ (bell : instrument ℚ).env.amplitude t2 1 0) ∧
     (bell : instrument ℚ).env.amplitude (1 + (bell : instrument ℚ).env.dAttackTime) 1 0
        = (bell : instrument ℚ).env.dStartAmplitude) ∧
    (bell : instrument ℚ).env.amplitude 1.005 1 0 = 0.5 ∧
    (bell : instrument ℚ).env.amplitude 1.01 1 0 = 1 :=
  ⟨C10_attack_ramp (bell : instrument ℚ).env 1 0
      (by norm_num [bell, envelope_adsr.init]) (by norm_num [bell, envelope_adsr.init])
      (by norm_num [bell, envelope_adsr.init]) (by norm_num),
   by norm_num [envelope_adsr.amplitude, bell, envelope_adsr.init],
   by norm_num [envelope_adsr.amplitude, bell, envelope_adsr.init]⟩

/-- C10 as stated fails: with attack 1 > 0, start 1 >= 0 and decay -2, the
held note (on 1 > off 0) has amplitude 1, not 0, at time on. -/
theorem C10_counterexample :
    (0 : ℚ) < exampleNegativeDecay.dAttackTime ∧ (0 : ℚ) ≤ exampleNegativeDecay.dStartAmplitude ∧
    (1 : ℚ) > 0 ∧ exampleNegativeDecay.amplitude 1 1 0 = 1 ∧
    exampleNegativeDecay.amplitude 1 1 0 ≠ 0 := by
  have h : exampleNegativeDecay.amplitude 1 1 0 = 1 := by
    norm_num [envelope_adsr.amplitude, exampleNegativeDecay]
  refine ⟨?_, ?_, ?_, h, ?_⟩
  · norm_num [exampleNegativeDecay]
  · norm_num [exampleNegativeDecay]
  · norm_num
  · rw [h]; norm_num

end claims

/-! ## More on the envelope -/

section envelope_bounds

variable {α : Type} [LinearOrderedField α]

theorem adsr_stage_sustain (e : envelope_adsr α) (life : α) (hD : 0 < e.dDecayTime)
    (h : e.dAttackTime + e.dDecayTime ≤ life) : adsr_stage e life = e.dSustainAmplitude := by
  unfold adsr_stage
  simp only []
  rcases eq_or_lt_of_le h with heq | hlt
  · have h1 : ¬ (life ≤ e.dAttackTime) := by rw [← heq]; intro hc; linarith
    have h2 : life > e.dAttackTime ∧ life ≤ e.dAttackTime + e.dDecayTime :=
      ⟨by rw [← heq]; linarith, le_of_eq heq.symm⟩
    have h3 : ¬ (life > e.dAttackTime + e.dDecayTime) := by rw [← heq]; exact lt_irrefl _
    rw [if_neg h3, if_pos h2]
    have h4 : (life - e.dAttackTime) / e.dDecayTime = 1 := by
      rw [← heq, add_sub_cancel_left]; exact div_self hD.ne.symm
    rw [h4]; ring
  · rw [if_pos hlt]

theorem adsr_stage_le_one (e : envelope_adsr α) (life : α)
    (hA : 0 < e.dAttackTime) (hD : 0 < e.dDecayTime) (hS0 : 0 ≤ e.dStartAmplitude)
    (hS : e.dStartAmplitude ≤ 1) (hU : e.dSustainAmplitude ≤ 1) : adsr_stage e life ≤ 1 := by
  unfold adsr_stage
  simp only []
  split_ifs with h1 h2 h3
  · exact hU
  · have hx : 0 ≤ (life - e.dAttackTime) / e.dDecayTime := div_nonneg (by linarith [h2.1]) hD.le
    have hx1 : (life - e.dAttackTime) / e.dDecayTime ≤ 1 := by
      rw [div_le_one hD]; linarith [h2.2]
    nlinarith
  · have hx1 : life / e.dAttackTime ≤ 1 := by rw [div_le_one hA]; exact h3
    nlinarith
  · exact zero_le_one

/-- Bounds of the envelope for parameter sets like those of the three
instruments: held, or released and evaluated no earlier than the release. -/
theorem amplitude_mem_unit (e : envelope_adsr α) (dTime dTimeOn dTimeOff : α)
    (hA : 0 < e.dAttackTime) (hD : 0 < e.dDecayTime) (hR : 0 < e.dReleaseTime)
    (hS0 : 0 ≤ e.dStartAmplitude) (hS : e.dStartAmplitude ≤ 1)
    (hU0 : 0 ≤ e.dSustainAmplitude) (hU : e.dSustainAmplitude ≤ 1)
    (h : dTimeOn > dTimeOff ∨ dTimeOff ≤ dTime) :
    0 ≤ e.amplitude dTime dTimeOn dTimeOff ∧ e.amplitude dTime dTimeOn dTimeOff ≤ 1 := by
  refine ⟨amplitude_nonneg e _ _ _, ?_⟩
  rw [amplitude_eq]
  apply max_le zero_le_one
  by_cases hon : dTimeOn > dTimeOff
  · rw [if_pos hon]
    exact adsr_stage_le_one e _ hA hD hS0 hS hU
  · rw [if_neg hon]
    have ht : dTimeOff ≤ dTime := h.resolve_left hon
    have hr0 : 0 ≤ adsr_stage e (dTimeOff - dTimeOn) :=
      adsr_stage_nonneg e _ hA hD hS0 hU0 (by linarith [not_lt.mp hon])
    have hr1 : adsr_stage e (dTimeOff - dTimeOn) ≤ 1 :=
      adsr_stage_le_one e _ hA hD hS0 hS hU
    have hq : 0 ≤ (dTime - dTimeOff) / e.dReleaseTime := div_nonneg (by linarith) hR.le
    nlinarith

theorem bell_env_mem_unit (dTime dTimeOn dTimeOff : α)
    (h : dTimeOn > dTimeOff ∨ dTimeOff ≤ dTime) :
    0 ≤ (bell : instrument α).env.amplitude dTime dTimeOn dTimeOff ∧
      (bell : instrument α).env.amplitude dTime dTimeOn dTimeOff ≤ 1 := by
  apply amplitude_mem_unit _ _ _ _ _ _ _ _ _ _ _ h <;> norm_num [bell, envelope_adsr.init]

theorem harmonica_env_mem_unit (dTime dTimeOn dTimeOff : α)
    (h : dTimeOn > dTimeOff ∨ dTimeOff ≤ dTime) :
    0 ≤ (harmonica : instrument α).env.amplitude dTime dTimeOn dTimeOff ∧
      (harmonica : instrument α).env.amplitude dTime dTimeOn dTimeOff ≤ 1 := by
  apply amplitude_mem_unit _ _ _ _ _ _ _ _ _ _ _ h <;> norm_num [harmonica, envelope_adsr.init]

theorem piano_env_mem_unit (dTime dTimeOn dTimeOff : α)
    (h : dTimeOn > dTimeOff ∨ dTimeOff ≤ dTime) :
    0 ≤ (piano : instrument α).env.amplitude dTime dTimeOn dTimeOff ∧
      (piano : instrument α).env.amplitude dTime dTimeOn dTimeOff ≤ 1 := by
  apply amplitude_mem_unit _ _ _ _ _ _ _ _ _ _ _ h <;> norm_num [piano, envelope_adsr.init]

end envelope_bounds

section claims2

/-- In exact arithmetic (no rounding): for attack, decay > 0, sustain >= 0 and
a held note (on > off), the amplitude equals the sustain amplitude at every
time t >= on + attack + decay, the time on + attack + decay itself included. -/
theorem sustain_exact_arithmetic {α : Type} [LinearOrderedField α]
    (e : envelope_adsr α) (dTimeOn dTimeOff : α)
    (_hA : 0 < e.dAttackTime) (hD : 0 < e.dDecayTime) (hU : 0 ≤ e.dSustainAmplitude)
    (h : dTimeOn > dTimeOff) :
    (∀ t : α, dTimeOn + e.dAttackTime + e.dDecayTime ≤ t →
        e.amplitude t dTimeOn dTimeOff = e.dSustainAmplitude) ∧
    e.amplitude (dTimeOn + e.dAttackTime + e.dDecayTime) dTimeOn dTimeOff
      = e.dSustainAmplitude := by
  have key : ∀ t : α, dTimeOn + e.dAttackTime + e.dDecayTime ≤ t →
      e.amplitude t dTimeOn dTimeOff = e.dSustainAmplitude := by
    intro t ht
    rw [amplitude_eq, if_pos h, adsr_stage_sustain e _ hD (by linarith)]
    exact max_eq_right hU
  exact ⟨key, key _ (le_refl _)⟩

/-- The exact sustain at the piano envelope for a note pressed at 1 and not
released: the amplitude is 0.6 at 1.205 (= on + attack + decay) and ever after. -/
theorem sustain_exact_arithmetic_witness :
    ((∀ t : ℚ, 1 + (piano : instrument ℚ).env.dAttackTime
          + (piano : instrument ℚ).env.dDecayTime ≤ t →
        (piano : instrument ℚ).env.amplitude t 1 0
          = (piano : instrument ℚ).env.dSustainAmplitude) ∧
     (piano : instrument ℚ).env.amplitude (1 + (piano : instrument ℚ).env.dAttackTime
          + (piano : instrument ℚ).env.dDecayTime) 1 0
        = (piano : instrument ℚ).env.dSustainAmplitude) ∧
    (piano : instrument ℚ).env.amplitude 1.205 1 0 = 0.6 ∧
    (piano : instrument ℚ).env.amplitude 9 1 0 = 0.6 :=
  ⟨sustain_exact_arithmetic (piano : instrument ℚ).env 1 0
      (by norm_num [piano, envelope_adsr.init]) (by norm_num [piano, envelope_adsr.init])
      (by norm_num [piano, envelope_adsr.init]) (by norm_num),
   by norm_num [envelope_adsr.amplitude, piano, envelope_adsr.init],
   by norm_num [envelope_adsr.amplitude, piano, envelope_adsr.init]⟩

/-- C12 as amended: for the bell, harmonica and piano envelopes the amplitude
is never negative, at every time, on time and off time; and it is at most 1
whenever the note is held (on > off) or the time is not before the off time. -/
theorem C12_instrument_amplitude_in_unit_interval {α : Type} [LinearOrderedField α]
    (dTime dTimeOn dTimeOff : α) :
    (0 ≤ (bell : instrument α).env.amplitude dTime dTimeOn dTimeOff ∧
      0 ≤ (harmonica : instrument α).env.amplitude dTime dTimeOn dTimeOff ∧
      0 ≤ (piano : instrument α).env.amplitude dTime dTimeOn dTimeOff) ∧
    (dTimeOn > dTimeOff ∨ dTimeOff ≤ dTime →
      (bell : instrument α).env.amplitude dTime dTimeOn dTimeOff ≤ 1 ∧
      (harmonica : instrument α).env.amplitude dTime dTimeOn dTimeOff ≤ 1 ∧
      (piano : instrument α).env.amplitude dTime dTimeOn dTimeOff ≤ 1) :=
  ⟨⟨amplitude_nonneg _ _ _ _, amplitude_nonneg _ _ _ _, amplitude_nonneg _ _ _ _⟩,
   fun h => ⟨(bell_env_mem_unit _ _ _ h).2, (harmonica_env_mem_unit _ _ _ h).2,
     (piano_env_mem_unit _ _ _ h).2⟩⟩

/-- C12 as amended, at a note pressed at 0 and released at 10, evaluated at
the release time 10: bell 0, harmonica 0.95, piano 0.6. -/
theorem C12_instrument_amplitude_in_unit_interval_witness :
    ((bell : instrument ℚ).env.amplitude 10 0 10 ≤ 1 ∧
      (harmonica : instrument ℚ).env.amplitude 10 0 10 ≤ 1 ∧
      (piano : instrument ℚ).env.amplitude 10 0 10 ≤ 1) ∧
    (bell : instrument ℚ).env.amplitude 10 0 10 = 0 ∧
    (harmonica : instrument ℚ).env.amplitude 10 0 10 = 0.95 ∧
    (piano : instrument ℚ).env.amplitude 10 0 10 = 0.6 :=
  ⟨(C12_instrument_amplitude_in_unit_interval 10 0 10).2 (Or.inr (le_refl _)),
   by norm_num [envelope_adsr.amplitude, bell, envelope_adsr.init],
   by norm_num [envelope_adsr.amplitude, harmonica, envelope_adsr.init],
   by norm_num [envelope_adsr.amplitude, piano, envelope_adsr.init]⟩

/-- C12 as stated fails: for a note pressed at 0 and released at 10, the
harmonica envelope evaluated at time 0, before the release, returns 95.95,
and the piano envelope returns 8.1. -/
theorem C12_counterexample :
    (harmonica : instrument ℚ).env.amplitude 0 0 10 = 95.95 ∧
    ¬ ((harmonica : instrument ℚ).env.amplitude 0 0 10 ≤ 1) ∧
    (piano : instrument ℚ).env.amplitude 0 0 10 = 8.1 := by
  have h : (harmonica : instrument ℚ).env.amplitude 0 0 10 = 95.95 := by
    norm_num [envelope_adsr.amplitude, harmonica, envelope_adsr.init]
  refine ⟨h, ?_, ?_⟩
  · rw [h]; norm_num
  · norm_num [envelope_adsr.amplitude, piano, envelope_adsr.init]

end claims2

section prune_lemmas

variable {α : Type} [LinearOrderedField α]

theorem filter_markFinished (dTime : α) (v : List (note α)) :
    (v.map (markFinished dTime)).filter (fun item => item.active) =
      v.filter (fun n => n.active && !(noteFinished dTime n && decide (n.off > n.on_))) := by
  induction v with
  | nil => rfl
  | cons n v ih =>
    rw [List.map_cons, List.filter_cons, List.filter_cons, ih]
    by_cases hc : noteFinished dTime n = true ∧ n.off > n.on_
    · have h1 : markFinished dTime n = { n with active := false } := by
        unfold markFinished; rw [if_pos hc]
      simp [h1, hc.1, hc.2]
    · have h1 : markFinished dTime n = n := by
        unfold markFinished; rw [if_neg hc]
      rw [h1]
      have h2 : (noteFinished dTime n && decide (n.off > n.on_)) = false := by
        rw [Bool.and_eq_false_iff]
        by_cases hf : noteFinished dTime n = true
        · right
          have : ¬ n.off > n.on_ := fun hlt => hc ⟨hf, hlt⟩
          simpa using this
        · left; simpa using hf
      simp [h2]

end prune_lemmas

section mixer_lemmas

variable {α : Type} [LinearOrderedField α] [FloorRing α]

theorem makeNoise_loop_sum (m : CMath α) (dTime : α) (v : List (note α)) :
    ∀ (acc : α) (g : RandState),
      (makeNoise.loop m dTime v acc g).1 = acc + sumOfVoices m dTime v g := by
  induction v with
  | nil => intro acc g; simp [makeNoise.loop, sumOfVoices]
  | cons n v ih =>
    intro acc g
    simp only [makeNoise.loop, sumOfVoices, ih]
    by_cases h1 : n.channel = 1
    · have h2 : ¬ n.channel = 2 := by omega
      have h3 : ¬ n.channel = 3 := by omega
      simp only [voice, if_pos h1, if_neg h2, if_neg h3]
      ring
    · by_cases h2 : n.channel = 2
      · have h3 : ¬ n.channel = 3 := by omega
        simp only [voice, if_neg h1, if_pos h2, if_neg h3]
        ring
      · by_cases h3 : n.channel = 3
        · simp only [voice, if_neg h1, if_neg h2, if_pos h3]
          ring
        · simp only [voice, if_neg h1, if_neg h2, if_neg h3]
          ring

theorem makeNoise_sample (m : CMath α) (nChannel : Int) (dTime : α) (v : List (note α))
    (g : RandState) :
    (makeNoise m nChannel dTime v g).1 = 0.2 * sumOfVoices m dTime v g := by
  simp only [makeNoise, makeNoise_loop_sum]
  ring

end mixer_lemmas

section claims3

/-- C16: for every channel argument and every time, `makeNoise` on the empty
note table returns exactly 0 and leaves the table empty. -/
theorem C16_empty_table_is_silent {α : Type} [LinearOrderedField α] [FloorRing α]
    (m : CMath α) (nChannel : Int) (dTime : α) (g : RandState) :
    (makeNoise m nChannel dTime [] g).1 = 0 ∧ (makeNoise m nChannel dTime [] g).2.1 = [] := by
  constructor
  · simp [makeNoise, makeNoise.loop]
  · simp [makeNoise, makeNoise.loop, safe_remove]

/-- C17: the value returned by `makeNoise` is 0.2 times the sum over the
notes of the table of the note's voice (0.5 times `harmonica.sound` on
channel 1, `bell.sound` on channel 2, `piano.sound` on channel 3, 0
otherwise), and the channel argument has no influence on the result. -/
theorem C17_sample_is_scaled_sum_of_voices {α : Type} [LinearOrderedField α] [FloorRing α]
    (m : CMath α) (nChannel : Int) (dTime : α) (vecNotes : List (note α)) (g : RandState) :
    (makeNoise m nChannel dTime vecNotes g).1 = 0.2 * sumOfVoices m dTime vecNotes g ∧
    ∀ nChannel2 : Int,
      makeNoise m nChannel2 dTime vecNotes g = makeNoise m nChannel dTime vecNotes g :=
  ⟨makeNoise_sample m nChannel dTime vecNotes g, fun _ => rfl⟩

/-- C20: the table left by `makeNoise` is a sub-sequence of the table before
it: the surviving notes are notes of the old table, unchanged in every field
and in their old order, and nothing is added or duplicated. -/
theorem C20_render_leaves_a_subsequence {α : Type} [LinearOrderedField α] [FloorRing α]
    (m : CMath α) (nChannel : Int) (dTime : α) (vecNotes : List (note α)) (g : RandState) :
    List.Sublist (makeNoise m nChannel dTime vecNotes g).2.1 vecNotes := by
  rw [makeNoise_notes, filter_markFinished]
  exact List.filter_sublist _

end claims3

section find_if_lemmas

variable {α : Type}

theorem find_if_cons (p : note α → Bool) (a : note α) (v : List (note α)) :
    find_if p (a :: v) =
      if p a then some (0, a) else (find_if p v).map (fun r => (r.1 + 1, r.2)) := rfl

theorem find_if_some_mem (p : note α → Bool) (v : List (note α)) (i : Nat) (n : note α)
    (h : find_if p v = some (i, n)) : n ∈ v ∧ p n = true := by
  rcases find_if_cases p v with ⟨h1, _⟩ | ⟨pre, x, post, hv, _, hx, hf⟩
  · rw [h1] at h; exact absurd h (by simp)
  · rw [hf] at h
    have hxn : x = n := by
      have := Option.some.inj h
      exact (Prod.mk.inj this).2
    subst hxn
    exact ⟨by rw [hv]; simp, hx⟩

theorem find_if_append_of_some (p : note α → Bool) (w : List (note α)) (n : note α)
    (v : List (note α)) :
    ∀ i : Nat, find_if p v = some (i, n) → find_if p (v ++ w) = some (i, n) := by
  induction v with
  | nil => intro i h; simp [find_if] at h
  | cons a v ih =>
    intro i h
    rw [List.cons_append, find_if_cons]
    rw [find_if_cons] at h
    by_cases ha : p a = true
    · rw [if_pos ha] at h ⊢
      exact h
    · rw [if_neg ha] at h ⊢
      cases hf : find_if p v with
      | none => rw [hf] at h; simp at h
      | some r =>
        rw [hf] at h
        have hr : r.2 = n := by
          have := Option.some.inj h
          exact (Prod.mk.inj this).2
        have hv : find_if p v = some (r.1, n) := by rw [hf, ← hr]
        rw [ih r.1 hv]
        rw [← h]
        simp [hr]

theorem find_if_replace (p : note α → Bool) (pre : List (note α)) (x y : note α)
    (post : List (note α)) (hx : p x = false) (hy : p y = false) :
    find_if p (pre ++ y :: post) = find_if p (pre ++ x :: post) := by
  induction pre with
  | nil => simp [find_if, hx, hy]
  | cons a pre ih => rw [List.cons_append, List.cons_append, find_if_cons, find_if_cons, ih]

theorem find_if_filter_of_some (p q : note α → Bool) (n : note α) (hq : q n = true)
    (v : List (note α)) :
    ∀ i : Nat, find_if p v = some (i, n) → ∃ j : Nat, find_if p (v.filter q) = some (j, n) := by
  induction v with
  | nil => intro i h; simp [find_if] at h
  | cons a v ih =>
    intro i h
    rw [find_if_cons] at h
    by_cases ha : p a = true
    · rw [if_pos ha] at h
      have han : a = n := (Prod.mk.inj (Option.some.inj h)).2
      subst han
      exact ⟨0, by rw [List.filter_cons, if_pos hq, find_if_cons, if_pos ha]⟩
    · rw [if_neg ha] at h
      cases hf : find_if p v with
      | none => rw [hf] at h; simp at h
      | some r =>
        rw [hf] at h
        have hr : r.2 = n := by
          have := Option.some.inj h
          exact (Prod.mk.inj this).2
        obtain ⟨j, hj⟩ := ih r.1 (by rw [hf, ← hr])
        by_cases hqa : q a = true
        · exact ⟨j + 1, by rw [List.filter_cons, if_pos hqa, find_if_cons, if_neg ha, hj]; rfl⟩
        · exact ⟨j, by rw [List.filter_cons, if_neg hqa, hj]⟩

end find_if_lemmas

section stuck_lemmas

variable {α : Type} [LinearOrderedField α]

/-- The key-poll step keeps a note with on = off as the first note of its id. -/
theorem pollKey_keeps_stuck (n : note α) (hn : n.on_ = n.off) (k : Int) (nKeyState : Nat)
    (dTimeNow : α) (v : List (note α)) (i : Nat)
    (h : find_if (fun item : note α => item.id == n.id) v = some (i, n)) :
    ∃ j : Nat, find_if (fun item : note α => item.id == n.id)
      (main.pollKey k nKeyState dTimeNow v) = some (j, n) := by
  by_cases hk : k = n.id
  · subst hk
    refine ⟨i, ?_⟩
    have h1 : ¬ n.off > n.on_ := by rw [hn]; exact lt_irrefl _
    have h2 : ¬ n.off < n.on_ := by rw [hn]; exact lt_irrefl _
    simp only [main.pollKey, h]
    split_ifs <;> exact h
  · rcases find_if_cases (fun item : note α => item.id == k) v with
      ⟨hf, _⟩ | ⟨pre, x, post, hv, _, hx, hf⟩
    · simp only [main.pollKey, hf]
      split_ifs
      · exact ⟨i, find_if_append_of_some _ _ n v i h⟩
      · exact ⟨i, h⟩
    · have hxk : x.id = k := by simpa using hx
      have hpx : (fun item : note α => item.id == n.id) x = false := by
        simp only [beq_eq_false_iff_ne, ne_eq]; rw [hxk]; exact hk
      simp only [main.pollKey, hf]
      subst hv
      split_ifs
      · refine ⟨i, ?_⟩
        rw [set_at_split, find_if_replace _ pre x _ post hpx hpx]
        exact h
      · exact ⟨i, h⟩
      · refine ⟨i, ?_⟩
        rw [set_at_split, find_if_replace _ pre x _ post hpx hpx]
        exact h
      · exact ⟨i, h⟩

end stuck_lemmas

section stuck_run

variable {α : Type} [LinearOrderedField α] [FloorRing α]

theorem makeNoise_keeps_stuck (m : CMath α) (n : note α) (hn : n.on_ = n.off)
    (hact : n.active = true) (nChannel : Int) (dTime : α) (v : List (note α)) (g : RandState)
    (i : Nat) (h : find_if (fun item : note α => item.id == n.id) v = some (i, n)) :
    ∃ j : Nat, find_if (fun item : note α => item.id == n.id)
      (makeNoise m nChannel dTime v g).2.1 = some (j, n) := by
  rw [makeNoise_notes, filter_markFinished]
  apply find_if_filter_of_some _ _ n _ v i h
  have h1 : ¬ n.off > n.on_ := by rw [hn]; exact lt_irrefl _
  simp [hact, h1]

theorem run_keeps_stuck (m : CMath α) (n : note α) (hn : n.on_ = n.off)
    (hact : n.active = true) (events : List (Event α)) :
    ∀ (s : List (note α) × RandState) (i : Nat),
      find_if (fun item : note α => item.id == n.id) s.1 = some (i, n) →
      ∃ j : Nat, find_if (fun item : note α => item.id == n.id) (run m s events).1
        = some (j, n) := by
  induction events with
  | nil => intro s i h; exact ⟨i, h⟩
  | cons ev events ih =>
    intro s i h
    have hstep : ∃ j : Nat,
        find_if (fun item : note α => item.id == n.id) (step m s ev).1 = some (j, n) := by
      cases ev with
      | noteOn id now => exact pollKey_keeps_stuck n hn id _ now s.1 i h
      | noteOff id now => exact pollKey_keeps_stuck n hn id _ now s.1 i h
      | render nChannel dTime => exact makeNoise_keeps_stuck m n hn hact nChannel dTime s.1 s.2 i h
    obtain ⟨j, hj⟩ := hstep
    exact ih (step m s ev) j hj

end stuck_run

section claims4

/-- C18: for attack, decay, release > 0, start, sustain >= 0 and on <= off,
the released envelope at the release instant equals the held
attack/decay/sustain value at life = off - on (what the envelope returned at
that time while the note was still held), and from there it decays linearly,
reaching 0 at off + release. -/
theorem C18_release_starts_at_held_value {α : Type} [LinearOrderedField α]
    (e : envelope_adsr α) (dTimeOn dTimeOff : α)
    (hA : 0 < e.dAttackTime) (hD : 0 < e.dDecayTime) (hR : 0 < e.dReleaseTime)
    (hS : 0 ≤ e.dStartAmplitude) (hU : 0 ≤ e.dSustainAmplitude) (h : dTimeOn ≤ dTimeOff) :
    e.amplitude dTimeOff dTimeOn dTimeOff = adsr_stage e (dTimeOff - dTimeOn) ∧
    (∀ dTimeOff0 : α, dTimeOff0 < dTimeOn →
        e.amplitude dTimeOff dTimeOn dTimeOff = e.amplitude dTimeOff dTimeOn dTimeOff0) ∧
    (∀ t : α, dTimeOff ≤ t → t ≤ dTimeOff + e.dReleaseTime →
        e.amplitude t dTimeOn dTimeOff =
          e.amplitude dTimeOff dTimeOn dTimeOff * (1 - (t - dTimeOff) / e.dReleaseTime)) ∧
    e.amplitude (dTimeOff + e.dReleaseTime) dTimeOn dTimeOff = 0 := by
  have hr : 0 ≤ adsr_stage e (dTimeOff - dTimeOn) :=
    adsr_stage_nonneg e _ hA hD hS hU (by linarith)
  have hn : ¬ (dTimeOn > dTimeOff) := not_lt.mpr h
  have h0 : e.amplitude dTimeOff dTimeOn dTimeOff = adsr_stage e (dTimeOff - dTimeOn) := by
    rw [amplitude_eq, if_neg hn, sub_self, zero_div, zero_mul, zero_add]
    exact max_eq_right hr
  refine ⟨h0, ?_, ?_, ?_⟩
  · intro dTimeOff0 hlt
    rw [h0, amplitude_eq, if_pos hlt]
    exact (max_eq_right hr).symm
  · intro t ht1 ht2
    rw [h0, amplitude_eq, if_neg hn]
    have hq0 : 0 ≤ (t - dTimeOff) / e.dReleaseTime := div_nonneg (by linarith) hR.le
    have hq1 : (t - dTimeOff) / e.dReleaseTime ≤ 1 := by
      rw [div_le_one hR]; linarith
    have hv : (t - dTimeOff) / e.dReleaseTime * (0 - adsr_stage e (dTimeOff - dTimeOn))
        + adsr_stage e (dTimeOff - dTimeOn)
        = adsr_stage e (dTimeOff - dTimeOn) * (1 - (t - dTimeOff) / e.dReleaseTime) := by
      ring
    rw [hv]
    exact max_eq_right (mul_nonneg hr (by linarith))
  · rw [amplitude_eq, if_neg hn, add_sub_cancel_left, div_self hR.ne.symm]
    have hv : (1 : α) * (0 - adsr_stage e (dTimeOff - dTimeOn))
        + adsr_stage e (dTimeOff - dTimeOn) = 0 := by ring
    rw [hv]
    exact max_eq_left (le_refl 0)

/-- C18 at the piano envelope for a note pressed at 1 and released at 2: the
amplitude at the release is the sustain level 0.6, as for the held note, it
is 0.45 a quarter of the way down, and 0 at 2.8. -/
theorem C18_release_starts_at_held_value_witness :
    ((piano : instrument ℚ).env.amplitude 2 1 2 = adsr_stage (piano : instrument ℚ).env (2 - 1) ∧
     (∀ dTimeOff0 : ℚ, dTimeOff0 < 1 →
        (piano : instrument ℚ).env.amplitude 2 1 2
          = (piano : instrument ℚ).env.amplitude 2 1 dTimeOff0) ∧
     (∀ t : ℚ, 2 ≤ t → t ≤ 2 + (piano : instrument ℚ).env.dReleaseTime →
        (piano : instrument ℚ).env.amplitude t 1 2 =
          (piano : instrument ℚ).env.amplitude 2 1 2
            * (1 - (t - 2) / (piano : instrument ℚ).env.dReleaseTime)) ∧
     (piano : instrument ℚ).env.amplitude (2 + (piano : instrument ℚ).env.dReleaseTime) 1 2 = 0) ∧
    (piano : instrument ℚ).env.amplitude 2 1 2 = 0.6 ∧
    (piano : instrument ℚ).env.amplitude 2 1 0 = 0.6 ∧
    (piano : instrument ℚ).env.amplitude 2.2 1 2 = 0.45 :=
  ⟨C18_release_starts_at_held_value (piano : instrument ℚ).env 1 2
      (by norm_num [piano, envelope_adsr.init]) (by norm_num [piano, envelope_adsr.init])
      (by norm_num [piano, envelope_adsr.init]) (by norm_num [piano, envelope_adsr.init])
      (by norm_num [piano, envelope_adsr.init]) (by norm_num),
   by norm_num [envelope_adsr.amplitude, piano, envelope_adsr.init],
   by norm_num [envelope_adsr.amplitude, piano, envelope_adsr.init],
   by norm_num [envelope_adsr.amplitude, piano, envelope_adsr.init]⟩

/-- C19: an active note whose on time equals its off time is stuck: `noteOn`
and `noteOff` on its id leave the table unchanged at every time, `makeNoise`
never removes it, the envelope of each instrument gives amplitude 0 for it at
every time, and it is still in the table after every run of events. -/
theorem C19_note_with_on_eq_off_is_stuck {α : Type} [LinearOrderedField α] [FloorRing α]
    (m : CMath α) (n : note α) (hn : n.on_ = n.off) (hact : n.active = true) :
    (∀ (now : α) (pre post : List (note α)), (∀ x ∈ pre, x.id ≠ n.id) →
        noteOn n.id now (pre ++ n :: post) = pre ++ n :: post ∧
        noteOff n.id now (pre ++ n :: post) = pre ++ n :: post) ∧
    (∀ (nChannel : Int) (dTime : α) (vecNotes : List (note α)) (g : RandState),
        n ∈ vecNotes → n ∈ (makeNoise m nChannel dTime vecNotes g).2.1) ∧
    (∀ t : α, (harmonica : instrument α).env.amplitude t n.on_ n.off = 0 ∧
        (bell : instrument α).env.amplitude t n.on_ n.off = 0 ∧
        (piano : instrument α).env.amplitude t n.on_ n.off = 0) ∧
    (∀ (events : List (Event α)) (pre post : List (note α)) (g : RandState),
        (∀ x ∈ pre, x.id ≠ n.id) → n ∈ (run m (pre ++ n :: post, g) events).1) := by
  have h1 : ¬ n.off > n.on_ := by rw [hn]; exact lt_irrefl _
  have h2 : ¬ n.off < n.on_ := by rw [hn]; exact lt_irrefl _
  have hfind : ∀ pre post : List (note α), (∀ x ∈ pre, x.id ≠ n.id) →
      find_if (fun item : note α => item.id == n.id) (pre ++ n :: post)
        = some (pre.length, n) := fun pre post hpre =>
    find_if_first _ pre n post (fun x hx => by simpa using hpre x hx) (by simp)
  refine ⟨?_, ?_, ?_, ?_⟩
  · intro now pre post hpre
    constructor
    · simp only [noteOn, main.pollKey, hfind pre post hpre]
      rw [if_pos (by decide), if_neg h1]
    · simp only [noteOff, main.pollKey, hfind pre post hpre]
      rw [if_neg (by decide), if_neg h2]
  · intro nChannel dTime vecNotes g hmem
    rw [mem_makeNoise_iff]
    exact ⟨hmem, hact, fun hc => h1 hc.2⟩
  · intro t
    rw [hn]
    refine ⟨?_, ?_, ?_⟩
    · exact amplitude_on_eq_off _ t n.off (by norm_num [harmonica, envelope_adsr.init])
        (by norm_num [harmonica, envelope_adsr.init])
    · exact amplitude_on_eq_off _ t n.off (by norm_num [bell, envelope_adsr.init])
        (by norm_num [bell, envelope_adsr.init])
    · exact amplitude_on_eq_off _ t n.off (by norm_num [piano, envelope_adsr.init])
        (by norm_num [piano, envelope_adsr.init])
  · intro events pre post g hpre
    obtain ⟨j, hj⟩ := run_keeps_stuck m n hn hact events (pre ++ n :: post, g) pre.length
      (hfind pre post hpre)
    exact (find_if_some_mem _ _ j n hj).1

/-- C19 at concrete notes: `noteOn 0 1` then `noteOff 0 1` on the empty table
leaves the note of key 0 with on = off = 1, `noteOn 4 0` creates a note with
on = off = 0, and the first of them is stuck in the sense of C19. -/
theorem C19_note_with_on_eq_off_is_stuck_witness :
    noteOff 0 1 (noteOn 0 1 ([] : List (note ℚ))) = [exampleStuck] ∧
    noteOn 4 0 ([] : List (note ℚ))
      = [{ id := 4, on_ := 0, off := 0, active := true, channel := 1 }] ∧
    ((∀ (now : ℚ) (pre post : List (note ℚ)), (∀ x ∈ pre, x.id ≠ exampleStuck.id) →
        noteOn exampleStuck.id now (pre ++ exampleStuck :: post) = pre ++ exampleStuck :: post ∧
        noteOff exampleStuck.id now (pre ++ exampleStuck :: post)
          = pre ++ exampleStuck :: post) ∧
     (∀ (nChannel : Int) (dTime : ℚ) (vecNotes : List (note ℚ)) (g : RandState),
        exampleStuck ∈ vecNotes →
          exampleStuck ∈ (makeNoise exampleMath nChannel dTime vecNotes g).2.1) ∧
     (∀ t : ℚ, (harmonica : instrument ℚ).env.amplitude t exampleStuck.on_ exampleStuck.off = 0 ∧
        (bell : instrument ℚ).env.amplitude t exampleStuck.on_ exampleStuck.off = 0 ∧
        (piano : instrument ℚ).env.amplitude t exampleStuck.on_ exampleStuck.off = 0) ∧
     (∀ (events : List (Event ℚ)) (pre post : List (note ℚ)) (g : RandState),
        (∀ x ∈ pre, x.id ≠ exampleStuck.id) →
          exampleStuck ∈ (run exampleMath (pre ++ exampleStuck :: post, g) events).1)) :=
  ⟨by simp [noteOn, noteOff, main.pollKey, find_if, note.init, exampleStuck],
   by simp [noteOn, main.pollKey, find_if, note.init],
   C19_note_with_on_eq_off_is_stuck exampleMath exampleStuck rfl rfl⟩

end claims4

/-! ## The C library over the reals -/

section real_lemmas

theorem c_fmod_range {α : Type} [LinearOrderedField α] [FloorRing α] (x y : α)
    (hx : 0 ≤ x) (hy : 0 < y) : 0 ≤ c_fmod x y ∧ c_fmod x y < y := by
  unfold c_fmod
  have hq : 0 ≤ x / y := div_nonneg hx hy.le
  rw [if_pos hq]
  have h1 : (⌊x / y⌋ : α) ≤ x / y := Int.floor_le _
  have h2 : x / y < (⌊x / y⌋ : α) + 1 := Int.lt_floor_add_one _
  have hxy : x = x / y * y := by field_simp
  constructor
  · have : (⌊x / y⌋ : α) * y ≤ x / y * y := mul_le_mul_of_nonneg_right h1 hy.le
    linarith
  · have : x / y * y < ((⌊x / y⌋ : α) + 1) * y := mul_lt_mul_of_pos_right h2 hy
    linarith

theorem scale_realMath (n s : Int) :
    scale realMath n s = 256 * ((2 : ℝ) ^ ((1 : ℝ) / 12)) ^ (n : ℝ) := by
  unfold scale SCALE_BASE realMath
  simp

theorem scale_base_pow_twelve : (((2 : ℝ) ^ ((1 : ℝ) / 12)) ^ (12 : ℝ)) = 2 := by
  rw [← Real.rpow_mul (by norm_num : (0 : ℝ) ≤ 2)]
  norm_num

theorem scale_octave (n s : Int) : scale realMath n s = 2 * scale realMath (n - 12) s := by
  rw [scale_realMath, scale_realMath]
  have hb : (0 : ℝ) < (2 : ℝ) ^ ((1 : ℝ) / 12) := Real.rpow_pos_of_pos (by norm_num) _
  have hc : (((n - 12 : Int) : ℝ)) = (n : ℝ) - 12 := by push_cast; ring
  rw [hc, Real.rpow_sub hb, scale_base_pow_twelve]
  ring

end real_lemmas

section claims5

/-- C15: over the reals, with `pow` the real power function, `scale n` is
`256 * (2 ^ (1/12)) ^ n` and `scale n = 2 * scale (n - 12)` for every integer
note id `n` (and every scale id). -/
theorem C15_octave_doubling (n nScaleID : Int) :
    scale realMath n nScaleID = 256 * ((2 : ℝ) ^ ((1 : ℝ) / 12)) ^ (n : ℝ) ∧
    scale realMath n nScaleID = 2 * scale realMath (n - 12) nScaleID :=
  ⟨scale_realMath n nScaleID, scale_octave n nScaleID⟩

end claims5

section saw_lemmas

variable {α : Type} [LinearOrderedField α]

theorem osc_saw_loop_six (m : CMath α) (x : α) :
    osc_saw_loop m x 6 6 1 0 =
      m.sin x + m.sin (2 * x) / 2 + m.sin (3 * x) / 3 + m.sin (4 * x) / 4 + m.sin (5 * x) / 5 := by
  have e2 : (1 : α) + 1 = 2 := by norm_num
  have e3 : (2 : α) + 1 = 3 := by norm_num
  have e4 : (3 : α) + 1 = 4 := by norm_num
  have e5 : (4 : α) + 1 = 5 := by norm_num
  have e6 : (5 : α) + 1 = 6 := by norm_num
  have c1 : (1 : α) < 6 := by norm_num
  have c2 : (2 : α) < 6 := by norm_num
  have c3 : (3 : α) < 6 := by norm_num
  have c4 : (4 : α) < 6 := by norm_num
  have c5 : (5 : α) < 6 := by norm_num
  have c6 : ¬ ((6 : α) < 6) := lt_irrefl _
  simp only [osc_saw_loop, e2, e3, e4, e5, e6, c1, c2, c3, c4, c5, c6, if_true, if_false,
    one_mul, div_one, zero_add]

end saw_lemmas

section osc_lemmas

variable {α : Type} [LinearOrderedField α] [FloorRing α]

/-- Range of the oscillator for every kind but the analogue saw, the digital
saw being taken at a time that is not negative and a positive frequency. -/
theorem osc_range (m : CMath α) (hPI : 0 < m.PI)
    (hsin : ∀ x : α, -1 ≤ m.sin x ∧ m.sin x ≤ 1)
    (hasin : ∀ x : α, -(m.PI / 2) ≤ m.asin x ∧ m.asin x ≤ m.PI / 2)
    (hfmod : ∀ x y : α, 0 ≤ x → 0 < y → 0 ≤ m.fmod x y ∧ m.fmod x y < y)
    (hmax : 0 < m.RAND_MAX) (g : RandState) (hg : g 0 ≤ m.RAND_MAX)
    (dTime dHertz : α) (nType : Int) (dLFOHertz dLFOAmplitude dCustom : α)
    (hkind : nType ≠ 3) (hsaw : nType = 4 → 0 ≤ dTime ∧ 0 < dHertz) :
    -1 ≤ (osc m dTime dHertz nType dLFOHertz dLFOAmplitude dCustom g).1 ∧
      (osc m dTime dHertz nType dLFOHertz dLFOAmplitude dCustom g).1 ≤ 1 := by
  unfold osc
  simp only []
  split_ifs with h0 h1 hs h2 h4 h5
  · exact hsin _
  · constructor <;> norm_num
  · constructor <;> norm_num
  · obtain ⟨ha1, ha2⟩ := hasin (m.sin (w m dHertz * dTime
        + dLFOAmplitude * dHertz * m.sin (w m dLFOHertz * dTime)))
    have hp : 0 < 2 / m.PI := div_pos (by norm_num) hPI
    have hq : m.PI / 2 * (2 / m.PI) = 1 := by field_simp
    constructor
    · have := mul_le_mul_of_nonneg_right ha1 hp.le
      simp only []
      nlinarith
    · have := mul_le_mul_of_nonneg_right ha2 hp.le
      simp only []
      nlinarith
  · obtain ⟨ht, hz⟩ := hsaw h4
    obtain ⟨hf1, hf2⟩ := hfmod dTime (1 / dHertz) ht (by positivity)
    have hval : 2 / m.PI * (dHertz * m.PI * m.fmod dTime (1 / dHertz) - m.PI / 2)
        = 2 * (dHertz * m.fmod dTime (1 / dHertz)) - 1 := by
      field_simp
      ring
    have hb : dHertz * m.fmod dTime (1 / dHertz) < 1 := by
      have := mul_lt_mul_of_pos_left hf2 hz
      rwa [mul_one_div, div_self hz.ne.symm] at this
    have ha : 0 ≤ dHertz * m.fmod dTime (1 / dHertz) := mul_nonneg hz.le hf1
    simp only []
    rw [hval]
    constructor <;> linarith
  · have hM : (0 : α) < (m.RAND_MAX : α) := by exact_mod_cast hmax
    have hr0 : (0 : α) ≤ ((rand g).1 : α) / (m.RAND_MAX : α) :=
      div_nonneg (Nat.cast_nonneg _) hM.le
    have hr1 : ((rand g).1 : α) / (m.RAND_MAX : α) ≤ 1 := by
      rw [div_le_one hM]
      exact_mod_cast hg
    simp only []
    constructor <;> linarith
  · constructor <;> norm_num

end osc_lemmas

section real_osc

theorem realMath_PI_pos : 0 < realMath.PI := Real.pi_pos

theorem realMath_sin_range (x : ℝ) : -1 ≤ realMath.sin x ∧ realMath.sin x ≤ 1 :=
  ⟨Real.neg_one_le_sin x, Real.sin_le_one x⟩

theorem realMath_asin_range (x : ℝ) :
    -(realMath.PI / 2) ≤ realMath.asin x ∧ realMath.asin x ≤ realMath.PI / 2 :=
  ⟨Real.neg_pi_div_two_le_arcsin x, Real.arcsin_le_pi_div_two x⟩

theorem realMath_fmod_range (x y : ℝ) (hx : 0 ≤ x) (hy : 0 < y) :
    0 ≤ realMath.fmod x y ∧ realMath.fmod x y < y :=
  c_fmod_range x y hx hy

theorem realMath_RAND_MAX_pos : 0 < realMath.RAND_MAX := by
  show 0 < 32767
  norm_num

theorem sqrt_three_gt : (1.72 : ℝ) < Real.sqrt 3 := by
  rw [Real.lt_sqrt (by norm_num)]
  norm_num

/-- The analogue saw with `dCustom = 6` at phase pi/6 (frequency 1, time 1/12)
overshoots 1. -/
theorem analogue_saw_overshoot (g : RandState) :
    1 < (osc realMath (1 / 12) 1 3 0 0 6 g).1 := by
  have hceil : ⌈(6 : ℝ)⌉₊ = 6 := by
    have : (6 : ℝ) = ((6 : ℕ) : ℝ) := by norm_num
    rw [this, Nat.ceil_natCast]
  have hfreq : w realMath 1 * (1 / 12) + 0 * 1 * realMath.sin (w realMath 0 * (1 / 12))
      = Real.pi / 6 := by
    simp only [w, realMath]
    ring
  have s1 : Real.sin (Real.pi / 6) = 1 / 2 := Real.sin_pi_div_six
  have s2 : Real.sin (2 * (Real.pi / 6)) = Real.sqrt 3 / 2 := by
    rw [show 2 * (Real.pi / 6) = Real.pi / 3 by ring]; exact Real.sin_pi_div_three
  have s3 : Real.sin (3 * (Real.pi / 6)) = 1 := by
    rw [show 3 * (Real.pi / 6) = Real.pi / 2 by ring]; exact Real.sin_pi_div_two
  have s4 : Real.sin (4 * (Real.pi / 6)) = Real.sqrt 3 / 2 := by
    rw [show 4 * (Real.pi / 6) = Real.pi - Real.pi / 3 by ring, Real.sin_pi_sub]
    exact Real.sin_pi_div_three
  have s5 : Real.sin (5 * (Real.pi / 6)) = 1 / 2 := by
    rw [show 5 * (Real.pi / 6) = Real.pi - Real.pi / 6 by ring, Real.sin_pi_sub]
    exact Real.sin_pi_div_six
  have hval : (osc realMath (1 / 12) 1 3 0 0 6 g).1
      = (1 / 2 + Real.sqrt 3 / 2 / 2 + 1 / 3 + Real.sqrt 3 / 2 / 4 + 1 / 2 / 5)
          * (2 / Real.pi) := by
    unfold osc
    simp only []
    rw [if_neg (by decide), if_neg (by decide), if_neg (by decide), if_pos (by decide)]
    simp only []
    rw [hceil, hfreq, osc_saw_loop_six]
    show (Real.sin (Real.pi / 6) + Real.sin (2 * (Real.pi / 6)) / 2
      + Real.sin (3 * (Real.pi / 6)) / 3 + Real.sin (4 * (Real.pi / 6)) / 4
      + Real.sin (5 * (Real.pi / 6)) / 5) * (2 / Real.pi) = _
    rw [s1, s2, s3, s4, s5]
  rw [hval]
  have hpi : Real.pi < 3.15 := Real.pi_lt_d2
  have hs : (1.72 : ℝ) < Real.sqrt 3 := sqrt_three_gt
  rw [mul_div_assoc', lt_div_iff₀ Real.pi_pos]
  linarith

/-- The digital saw at the negative time -1/2 and frequency 1 gives -2. -/
theorem digital_saw_negative_time (g : RandState) :
    (osc realMath (-1 / 2) 1 4 0 0 50 g).1 = -2 := by
  have hf : c_fmod (-1 / 2 : ℝ) (1 / 1) = -1 / 2 := by
    unfold c_fmod
    have hq : ¬ (0 : ℝ) ≤ -1 / 2 / (1 / 1) := by norm_num
    rw [if_neg hq]
    have hc : ⌈(-1 / 2 / (1 / 1) : ℝ)⌉ = 0 := by
      rw [Int.ceil_eq_iff]
      norm_num
    rw [hc]
    norm_num
  unfold osc
  simp only []
  rw [if_neg (by decide), if_neg (by decide), if_neg (by decide), if_neg (by decide),
    if_pos (by decide)]
  show 2 / Real.pi * (1 * Real.pi * c_fmod (-1 / 2 : ℝ) (1 / 1) - Real.pi / 2) = -2
  rw [hf]
  have hpi : Real.pi ≠ 0 := Real.pi_pos.ne.symm
  field_simp
  ring

end real_osc

/-! ## A bound on the mixed sample -/

section bound_lemmas

variable {α : Type} [LinearOrderedField α]

theorem harmonic_hundred :
    (∑ j in Finset.range 100, (1 : α) / (((1 + j : ℕ) : α))) ≤ 21 / 4 := by
  simp only [Finset.sum_range_succ, Finset.sum_range_zero]
  norm_num

theorem osc_saw_loop_abs_le (m : CMath α) (hsin : ∀ x : α, -1 ≤ m.sin x ∧ m.sin x ≤ 1)
    (x c : α) (fuel : Nat) :
    ∀ (k : Nat) (out : α), 1 ≤ k →
      |osc_saw_loop m x c fuel (k : α) out|
        ≤ |out| + ∑ j in Finset.range fuel, (1 : α) / (((k + j : ℕ) : α)) := by
  induction fuel with
  | zero => intro k out _; simp [osc_saw_loop]
  | succ fuel ih =>
    intro k out hk
    have hkpos : (0 : α) < (k : α) := by exact_mod_cast hk
    have hsum : ∑ j in Finset.range (fuel + 1), (1 : α) / (((k + j : ℕ) : α))
        = (1 : α) / (k : α) + ∑ j in Finset.range fuel, (1 : α) / (((k + 1 + j : ℕ) : α)) := by
      rw [Finset.sum_range_succ', add_comm]
      congr 1
      apply Finset.sum_congr rfl
      intro j _
      have : k + (j + 1) = k + 1 + j := by omega
      rw [this]
    have hnonneg : (0 : α) ≤ ∑ j in Finset.range fuel, (1 : α) / (((k + 1 + j : ℕ) : α)) :=
      Finset.sum_nonneg (fun j _ => by positivity)
    rw [hsum]
    simp only [osc_saw_loop]
    split_ifs with hlt
    · have hcast : (k : α) + 1 = ((k + 1 : ℕ) : α) := by push_cast; ring
      rw [hcast]
      refine le_trans (ih (k + 1) _ (by omega)) ?_
      have hterm : |m.sin ((k : α) * x) / (k : α)| ≤ 1 / (k : α) := by
        rw [abs_div, abs_of_pos hkpos]
        exact div_le_div_of_nonneg_right (abs_le.mpr (hsin _)) hkpos.le
      have := abs_add out (m.sin ((k : α) * x) / (k : α))
      linarith
    · have : (0 : α) ≤ 1 / (k : α) := by positivity
      linarith

theorem scaled_bound (a x B : α) (ha0 : 0 ≤ a) (ha1 : a ≤ 1) (hx : |x| ≤ B) :
    |a * x| ≤ B := by
  rw [abs_mul, abs_of_nonneg ha0]
  have hx0 : 0 ≤ |x| := abs_nonneg x
  nlinarith

end bound_lemmas

section voice_bounds

variable {α : Type} [LinearOrderedField α] [FloorRing α]

theorem osc_rand_bounded (m : CMath α) (g : RandState) (hg : ∀ i, g i ≤ m.RAND_MAX)
    (dTime dHertz : α) (nType : Int) (dLFOHertz dLFOAmplitude dCustom : α) :
    ∀ i, (osc m dTime dHertz nType dLFOHertz dLFOAmplitude dCustom g).2 i ≤ m.RAND_MAX := by
  unfold osc
  simp only []
  split_ifs <;> first | exact hg | (intro i; exact hg (i + 1))

theorem osc_abs_le_one (m : CMath α) (hPI : 0 < m.PI)
    (hsin : ∀ x : α, -1 ≤ m.sin x ∧ m.sin x ≤ 1)
    (hasin : ∀ x : α, -(m.PI / 2) ≤ m.asin x ∧ m.asin x ≤ m.PI / 2)
    (hmax : 0 < m.RAND_MAX) (g : RandState) (hg : ∀ i, g i ≤ m.RAND_MAX)
    (dTime dHertz : α) (nType : Int) (dLFOHertz dLFOAmplitude dCustom : α)
    (hkind : nType = 0 ∨ nType = 1 ∨ nType = 2 ∨ nType = 5) :
    |(osc m dTime dHertz nType dLFOHertz dLFOAmplitude dCustom g).1| ≤ 1 := by
  rw [abs_le]
  unfold osc
  simp only []
  rcases hkind with h | h | h | h
  · subst h
    rw [if_pos rfl]
    exact hsin _
  · subst h
    rw [if_neg (by decide), if_pos rfl]
    split_ifs <;> constructor <;> norm_num
  · subst h
    rw [if_neg (by decide), if_neg (by decide), if_pos rfl]
    obtain ⟨ha1, ha2⟩ := hasin (m.sin (w m dHertz * dTime
        + dLFOAmplitude * dHertz * m.sin (w m dLFOHertz * dTime)))
    have hp : 0 < 2 / m.PI := div_pos (by norm_num) hPI
    have hq : m.PI / 2 * (2 / m.PI) = 1 := by field_simp
    constructor
    · have := mul_le_mul_of_nonneg_right ha1 hp.le
      simp only []
      nlinarith
    · have := mul_le_mul_of_nonneg_right ha2 hp.le
      simp only []
      nlinarith
  · subst h
    rw [if_neg (by decide), if_neg (by decide), if_neg (by decide), if_neg (by decide),
      if_neg (by decide), if_pos rfl]
    have hM : (0 : α) < (m.RAND_MAX : α) := by exact_mod_cast hmax
    have hr0 : (0 : α) ≤ ((rand g).1 : α) / (m.RAND_MAX : α) :=
      div_nonneg (Nat.cast_nonneg _) hM.le
    have hr1 : ((rand g).1 : α) / (m.RAND_MAX : α) ≤ 1 := by
      rw [div_le_one hM]
      exact_mod_cast hg 0
    simp only []
    constructor <;> linarith

theorem osc_saw_hundred_abs_le (m : CMath α) (hPI : 3 ≤ m.PI)
    (hsin : ∀ x : α, -1 ≤ m.sin x ∧ m.sin x ≤ 1) (g : RandState)
    (dTime dHertz dLFOHertz dLFOAmplitude : α) :
    |(osc m dTime dHertz 3 dLFOHertz dLFOAmplitude 100 g).1| ≤ 7 / 2 := by
  have hceil : ⌈(100 : α)⌉₊ = 100 := by
    have : (100 : α) = ((100 : ℕ) : α) := by norm_num
    rw [this, Nat.ceil_natCast]
  have e0 : ¬ ((3 : Int) = 0) := by decide
  have e1 : ¬ ((3 : Int) = 1) := by decide
  have e2 : ¬ ((3 : Int) = 2) := by decide
  unfold osc
  simp only []
  rw [if_neg e0, if_neg e1, if_neg e2, if_pos trivial]
  simp only []
  rw [hceil]
  have hloop := osc_saw_loop_abs_le m hsin (w m dHertz * dTime
      + dLFOAmplitude * dHertz * m.sin (w m dLFOHertz * dTime)) 100 100 1 0 (le_refl 1)
  rw [Nat.cast_one, abs_zero, zero_add] at hloop
  have hH := le_trans hloop (harmonic_hundred : _ ≤ (21 / 4 : α))
  have hpos : (0 : α) < m.PI := by linarith
  have hfac0 : (0 : α) ≤ 2 / m.PI := by positivity
  have hfac : 2 / m.PI ≤ (2 / 3 : α) := by
    rw [div_le_div_iff₀ hpos (by norm_num)]
    linarith
  rw [abs_mul, abs_of_nonneg hfac0]
  have h0 := abs_nonneg (osc_saw_loop m (w m dHertz * dTime
      + dLFOAmplitude * dHertz * m.sin (w m dLFOHertz * dTime)) 100 100 1 0)
  nlinarith

theorem harmonica_sound_bound (m : CMath α) (hPI : 3 ≤ m.PI)
    (hsin : ∀ x : α, -1 ≤ m.sin x ∧ m.sin x ≤ 1)
    (hasin : ∀ x : α, -(m.PI / 2) ≤ m.asin x ∧ m.asin x ≤ m.PI / 2)
    (hmax : 0 < m.RAND_MAX) (g : RandState) (hg : ∀ i, g i ≤ m.RAND_MAX)
    (dTime : α) (n : note α) (b : Bool) (ht : n.on_ > n.off ∨ n.off ≤ dTime) :
    |(harmonica.sound m dTime n b g).1| ≤ 5.05 ∧
      ∀ i, (harmonica.sound m dTime n b g).2.2 i ≤ m.RAND_MAX := by
  have hpos : 0 < m.PI := by linarith
  obtain ⟨ha0, ha1⟩ := harmonica_env_mem_unit dTime n.on_ n.off ht
  unfold harmonica.sound
  simp only []
  have g1 := osc_rand_bounded m g hg (n.on_ - dTime) (scale m (n.id - 3) SCALE_DEFAULT) 3
    5.0 0.001 100
  have g2 := osc_rand_bounded m _ g1 (n.on_ - dTime) (scale m (n.id + 9) SCALE_DEFAULT) 1
    5.0 0.001 50.0
  have g3 := osc_rand_bounded m _ g2 (n.on_ - dTime) (scale m (n.id + 21) SCALE_DEFAULT) 1
    0.0 0.0 50.0
  have g4 := osc_rand_bounded m _ g3 (n.on_ - dTime) (scale m (n.id + 33) SCALE_DEFAULT) 5
    0.0 0.0 50.0
  refine ⟨?_, g4⟩
  have b1 := osc_saw_hundred_abs_le m hPI hsin g (n.on_ - dTime)
    (scale m (n.id - 3) SCALE_DEFAULT) 5.0 0.001
  have b2 := osc_abs_le_one m hpos hsin hasin hmax _ g1 (n.on_ - dTime)
    (scale m (n.id + 9) SCALE_DEFAULT) 1 5.0 0.001 50.0 (by decide)
  have b3 := osc_abs_le_one m hpos hsin hasin hmax _ g2 (n.on_ - dTime)
    (scale m (n.id + 21) SCALE_DEFAULT) 1 0.0 0.0 50.0 (by decide)
  have b4 := osc_abs_le_one m hpos hsin hasin hmax _ g3 (n.on_ - dTime)
    (scale m (n.id + 33) SCALE_DEFAULT) 5 0.0 0.0 50.0 (by decide)
  have hvol : (harmonica : instrument α).dVolume = 1 := by norm_num [harmonica]
  rw [hvol, mul_one]
  apply scaled_bound _ _ _ ha0 ha1
  rw [abs_le] at b1 b2 b3 b4 ⊢
  constructor <;> norm_num <;> linarith [b1.1, b1.2, b2.1, b2.2, b3.1, b3.2, b4.1, b4.2]

theorem bell_sound_bound (m : CMath α) (hPI : 3 ≤ m.PI)
    (hsin : ∀ x : α, -1 ≤ m.sin x ∧ m.sin x ≤ 1)
    (hasin : ∀ x : α, -(m.PI / 2) ≤ m.asin x ∧ m.asin x ≤ m.PI / 2)
    (hmax : 0 < m.RAND_MAX) (g : RandState) (hg : ∀ i, g i ≤ m.RAND_MAX)
    (dTime : α) (n : note α) (b : Bool) (ht : n.on_ > n.off ∨ n.off ≤ dTime) :
    |(bell.sound m dTime n b g).1| ≤ 1.75 ∧
      ∀ i, (bell.sound m dTime n b g).2.2 i ≤ m.RAND_MAX := by
  have hpos : 0 < m.PI := by linarith
  obtain ⟨ha0, ha1⟩ := bell_env_mem_unit dTime n.on_ n.off ht
  unfold bell.sound
  simp only []
  have g1 := osc_rand_bounded m g hg (n.on_ - dTime) (scale m (n.id + 12) SCALE_DEFAULT) 0
    5.0 0.001 50.0
  have g2 := osc_rand_bounded m _ g1 (n.on_ - dTime) (scale m (n.id + 24) SCALE_DEFAULT) 0
    0.0 0.0 50.0
  have g3 := osc_rand_bounded m _ g2 (n.on_ - dTime) (scale m (n.id + 36) SCALE_DEFAULT) 0
    0.0 0.0 50.0
  refine ⟨?_, g3⟩
  have b1 := osc_abs_le_one m hpos hsin hasin hmax _ hg (n.on_ - dTime)
    (scale m (n.id + 12) SCALE_DEFAULT) 0 5.0 0.001 50.0 (by decide)
  have b2 := osc_abs_le_one m hpos hsin hasin hmax _ g1 (n.on_ - dTime)
    (scale m (n.id + 24) SCALE_DEFAULT) 0 0.0 0.0 50.0 (by decide)
  have b3 := osc_abs_le_one m hpos hsin hasin hmax _ g2 (n.on_ - dTime)
    (scale m (n.id + 36) SCALE_DEFAULT) 0 0.0 0.0 50.0 (by decide)
  have hvol : (bell : instrument α).dVolume = 1 := by norm_num [bell]
  rw [hvol, mul_one]
  apply scaled_bound _ _ _ ha0 ha1
  rw [abs_le] at b1 b2 b3 ⊢
  constructor <;> norm_num <;> linarith [b1.1, b1.2, b2.1, b2.2, b3.1, b3.2]

theorem piano_sound_bound (m : CMath α) (hPI : 3 ≤ m.PI)
    (hsin : ∀ x : α, -1 ≤ m.sin x ∧ m.sin x ≤ 1)
    (hasin : ∀ x : α, -(m.PI / 2) ≤ m.asin x ∧ m.asin x ≤ m.PI / 2)
    (hmax : 0 < m.RAND_MAX) (g : RandState) (hg : ∀ i, g i ≤ m.RAND_MAX)
    (dTime : α) (n : note α) (b : Bool) (ht : n.on_ > n.off ∨ n.off ≤ dTime) :
    |(piano.sound m dTime n b g).1| ≤ 2.55 ∧
      ∀ i, (piano.sound m dTime n b g).2.2 i ≤ m.RAND_MAX := by
  have hpos : 0 < m.PI := by linarith
  obtain ⟨ha0, ha1⟩ := piano_env_mem_unit dTime n.on_ n.off ht
  unfold piano.sound
  simp only []
  have g1 := osc_rand_bounded m g hg (n.on_ - dTime) (scale m (n.id + 9) SCALE_DEFAULT) 0
    0.0 0.0 50.0
  have g2 := osc_rand_bounded m _ g1 (n.on_ - dTime) (scale m (n.id + 21) SCALE_DEFAULT) 1
    0.0 0.0 50.0
  have g3 := osc_rand_bounded m _ g2 (n.on_ - dTime) (scale m (n.id + 33) SCALE_DEFAULT) 2
    0.0 0.0 50.0
  refine ⟨?_, g3⟩
  have b1 := osc_abs_le_one m hpos hsin hasin hmax _ hg (n.on_ - dTime)
    (scale m (n.id + 9) SCALE_DEFAULT) 0 0.0 0.0 50.0 (by decide)
  have b2 := osc_abs_le_one m hpos hsin hasin hmax _ g1 (n.on_ - dTime)
    (scale m (n.id + 21) SCALE_DEFAULT) 1 0.0 0.0 50.0 (by decide)
  have b3 := osc_abs_le_one m hpos hsin hasin hmax _ g2 (n.on_ - dTime)
    (scale m (n.id + 33) SCALE_DEFAULT) 2 0.0 0.0 50.0 (by decide)
  have hvol : (piano : instrument α).dVolume = 1 := by norm_num [piano]
  rw [hvol, mul_one]
  apply scaled_bound _ _ _ ha0 ha1
  rw [abs_le] at b1 b2 b3 ⊢
  constructor <;> norm_num <;> linarith [b1.1, b1.2, b2.1, b2.2, b3.1, b3.2]

theorem voice_bound (m : CMath α) (hPI : 3 ≤ m.PI)
    (hsin : ∀ x : α, -1 ≤ m.sin x ∧ m.sin x ≤ 1)
    (hasin : ∀ x : α, -(m.PI / 2) ≤ m.asin x ∧ m.asin x ≤ m.PI / 2)
    (hmax : 0 < m.RAND_MAX) (g : RandState) (hg : ∀ i, g i ≤ m.RAND_MAX)
    (dTime : α) (n : note α) (ht : n.on_ > n.off ∨ n.off ≤ dTime) :
    |(voice m dTime n g).1| ≤ 2.55 ∧ ∀ i, (voice m dTime n g).2 i ≤ m.RAND_MAX := by
  unfold voice
  split_ifs with h1 h2 h3
  · obtain ⟨hb, hr⟩ := harmonica_sound_bound m hPI hsin hasin hmax g hg dTime n false ht
    refine ⟨?_, hr⟩
    simp only []
    rw [abs_le] at hb ⊢
    constructor <;> norm_num at hb ⊢ <;> linarith [hb.1, hb.2]
  · obtain ⟨hb, hr⟩ := bell_sound_bound m hPI hsin hasin hmax g hg dTime n false ht
    refine ⟨?_, hr⟩
    simp only []
    rw [abs_le] at hb ⊢
    constructor <;> norm_num at hb ⊢ <;> linarith [hb.1, hb.2]
  · obtain ⟨hb, hr⟩ := piano_sound_bound m hPI hsin hasin hmax g hg dTime n false ht
    exact ⟨hb, hr⟩
  · exact ⟨by norm_num, hg⟩

theorem sumOfVoices_bound (m : CMath α) (hPI : 3 ≤ m.PI)
    (hsin : ∀ x : α, -1 ≤ m.sin x ∧ m.sin x ≤ 1)
    (hasin : ∀ x : α, -(m.PI / 2) ≤ m.asin x ∧ m.asin x ≤ m.PI / 2)
    (hmax : 0 < m.RAND_MAX) (dTime : α) (v : List (note α)) :
    ∀ g : RandState, (∀ i, g i ≤ m.RAND_MAX) →
      (∀ n ∈ v, n.on_ > n.off ∨ n.off ≤ dTime) →
      |sumOfVoices m dTime v g| ≤ 2.55 * (v.length : α) := by
  induction v with
  | nil => intro g _ _; simp [sumOfVoices]
  | cons n v ih =>
    intro g hg ht
    obtain ⟨hb, hr⟩ := voice_bound m hPI hsin hasin hmax g hg dTime n
      (ht n (List.mem_cons_self _ _))
    have hrest := ih (voice m dTime n g).2 hr (fun x hx => ht x (List.mem_cons_of_mem _ hx))
    simp only [sumOfVoices, List.length_cons, Nat.cast_add, Nat.cast_one]
    have := abs_add (voice m dTime n g).1 (sumOfVoices m dTime v (voice m dTime n g).2)
    linarith

end voice_bounds

/-! ## A chord that leaves the range -/

section chord_lemmas

theorem osc_saw_loop_of_sin_zero {α : Type} [LinearOrderedField α] (m : CMath α) (x c : α)
    (hz : ∀ k : ℕ, m.sin ((k : α) * x) = 0) (fuel : Nat) :
    ∀ (k : Nat) (out : α), osc_saw_loop m x c fuel (k : α) out = out := by
  induction fuel with
  | zero => intro k out; rfl
  | succ fuel ih =>
    intro k out
    simp only [osc_saw_loop]
    split_ifs
    · have hcast : (k : α) + 1 = ((k + 1 : ℕ) : α) := by push_cast; ring
      rw [hcast, ih, hz k, zero_div, add_zero]
    · rfl

theorem scale_realMath_octave (k : ℕ) (s : Int) :
    scale realMath (12 * (k : Int)) s = ((256 * 2 ^ k : ℕ) : ℝ) := by
  rw [scale_realMath]
  have hc : (((12 * (k : Int) : Int)) : ℝ) = (12 : ℝ) * (k : ℝ) := by push_cast; ring
  rw [hc, Real.rpow_mul (by positivity), scale_base_pow_twelve, Real.rpow_natCast]
  push_cast
  ring

theorem lfo_five_zero : Real.sin (w realMath 5.0 * (-3 / 2)) = 0 := by
  have h : w realMath 5.0 * (-3 / 2) = ((-15 : ℤ) : ℝ) * Real.pi := by
    simp only [w, realMath]
    push_cast
    ring
  rw [h, Real.sin_int_mul_pi]

theorem lfo_zero_zero : Real.sin (w realMath 0.0 * (-3 / 2)) = 0 := by
  have h : w realMath 0.0 * (-3 / 2) = 0 := by
    simp only [w, realMath]
    norm_num
  rw [h, Real.sin_zero]

theorem phase_sin_zero (N k : ℕ) (a hz : ℝ) (hhz : Real.sin (w realMath hz * (-3 / 2)) = 0) :
    realMath.sin ((k : ℝ) * (w realMath (N : ℝ) * (-3 / 2)
      + a * (N : ℝ) * realMath.sin (w realMath hz * (-3 / 2)))) = 0 := by
  have h : (k : ℝ) * (w realMath (N : ℝ) * (-3 / 2)
      + a * (N : ℝ) * realMath.sin (w realMath hz * (-3 / 2)))
      = ((-(3 * (N : ℤ) * (k : ℤ)) : ℤ) : ℝ) * Real.pi := by
    show (k : ℝ) * (w realMath (N : ℝ) * (-3 / 2)
      + a * (N : ℝ) * Real.sin (w realMath hz * (-3 / 2))) = _
    rw [hhz]
    simp only [w, realMath]
    push_cast
    ring
  show Real.sin _ = 0
  rw [h, Real.sin_int_mul_pi]

theorem osc_square_at_chord (N : ℕ) (a hz c : ℝ) (g : RandState)
    (hhz : Real.sin (w realMath hz * (-3 / 2)) = 0) :
    osc realMath (-3 / 2) (N : ℝ) 1 hz a c g = (-1, g) := by
  have e0 : ¬ ((1 : Int) = 0) := by decide
  have hs := phase_sin_zero N 1 a hz hhz
  rw [Nat.cast_one, one_mul] at hs
  unfold osc
  simp only []
  rw [if_neg e0, if_pos trivial, hs, if_neg (lt_irrefl _)]

theorem osc_saw_at_chord (N : ℕ) (a hz : ℝ) (g : RandState)
    (hhz : Real.sin (w realMath hz * (-3 / 2)) = 0) :
    osc realMath (-3 / 2) (N : ℝ) 3 hz a 100 g = (0, g) := by
  have e0 : ¬ ((3 : Int) = 0) := by decide
  have e1 : ¬ ((3 : Int) = 1) := by decide
  have e2 : ¬ ((3 : Int) = 2) := by decide
  unfold osc
  simp only []
  rw [if_neg e0, if_neg e1, if_neg e2, if_pos trivial]
  have hl := osc_saw_loop_of_sin_zero realMath (w realMath (N : ℝ) * (-3 / 2)
      + a * (N : ℝ) * realMath.sin (w realMath hz * (-3 / 2))) 100
      (fun k => phase_sin_zero N k a hz hhz) ⌈(100 : ℝ)⌉₊ 1 0
  rw [Nat.cast_one] at hl
  rw [hl, zero_mul]

theorem osc_noise_of_zero (t f a hz c : ℝ) (g : RandState) (hg : g 0 = 0) :
    osc realMath t f 5 hz a c g = (-1, fun i => g (i + 1)) := by
  have e0 : ¬ ((5 : Int) = 0) := by decide
  have e1 : ¬ ((5 : Int) = 1) := by decide
  have e2 : ¬ ((5 : Int) = 2) := by decide
  have e3 : ¬ ((5 : Int) = 3) := by decide
  have e4 : ¬ ((5 : Int) = 4) := by decide
  unfold osc
  simp only []
  rw [if_neg e0, if_neg e1, if_neg e2, if_neg e3, if_neg e4, if_pos trivial]
  simp only [rand, hg]
  norm_num

/-- The voice of a held harmonica note of id 3 + 12 j pressed at 1, rendered
at time 5/2 with `rand()` returning 0. -/
theorem voice_at_chord (j : ℕ) (act : Bool) (g : RandState) (hg : g 0 = 0) :
    voice realMath (5 / 2)
      { id := 3 + 12 * (j : Int), on_ := 1, off := 0, active := act, channel := 1 } g
      = (-0.73625, fun i => g (i + 1)) := by
  have ht : (1 : ℝ) - 5 / 2 = -3 / 2 := by norm_num
  have i1 : (3 + 12 * (j : Int)) - 3 = 12 * ((j : ℕ) : Int) := by ring
  have i2 : (3 + 12 * (j : Int)) + 9 = 12 * ((j + 1 : ℕ) : Int) := by push_cast; ring
  have i3 : (3 + 12 * (j : Int)) + 21 = 12 * ((j + 2 : ℕ) : Int) := by push_cast; ring
  have hamp : (harmonica : instrument ℝ).env.amplitude (5 / 2) 1 0 = 0.95 := by
    norm_num [envelope_adsr.amplitude, harmonica, envelope_adsr.init]
  have hvol : (harmonica : instrument ℝ).dVolume = 1 := by norm_num [harmonica]
  unfold voice
  rw [if_pos rfl]
  unfold harmonica.sound env
  simp only []
  rw [ht, i1, i2, i3, scale_realMath_octave, scale_realMath_octave, scale_realMath_octave,
    osc_saw_at_chord _ _ _ _ lfo_five_zero, osc_square_at_chord _ _ _ _ _ lfo_five_zero,
    osc_square_at_chord _ _ _ _ _ lfo_zero_zero, osc_noise_of_zero _ _ _ _ _ _ hg, hamp, hvol]
  norm_num

end chord_lemmas

section chord_sum

theorem sumOfVoices_chord (v : List (ℕ × Bool)) :
    ∀ g : RandState, (∀ i, g i = 0) →
      sumOfVoices realMath (5 / 2)
        (v.map (fun p =>
          ({ id := 3 + 12 * (p.1 : Int), on_ := 1, off := 0, active := p.2, channel := 1 }
            : note ℝ))) g = -0.73625 * (v.length : ℝ) := by
  induction v with
  | nil => intro g _; simp [sumOfVoices]
  | cons p v ih =>
    intro g hg
    simp only [List.map_cons, sumOfVoices, List.length_cons]
    rw [voice_at_chord p.1 p.2 g (hg 0), ih (fun i => g (i + 1)) (fun i => hg (i + 1))]
    push_cast
    ring

theorem exampleChord_eq :
    (exampleChord : List (note ℝ)) =
      [((0 : ℕ), true), (1, true), (2, true), (3, true), (4, true), (5, true), (6, true)].map
        (fun p =>
          ({ id := 3 + 12 * (p.1 : Int), on_ := 1, off := 0, active := p.2, channel := 1 }
            : note ℝ)) := by
  simp [exampleChord]

theorem chord_sample (nChannel : Int) :
    (makeNoise realMath nChannel (5 / 2) exampleChord exampleRand).1 = -1.03075 := by
  rw [makeNoise_sample, exampleChord_eq, sumOfVoices_chord _ exampleRand (fun _ => rfl)]
  norm_num

end chord_sum

section claims6

/-- C13 as amended: with the C library functions within their mathematical
ranges and `rand()` at most `RAND_MAX`, `osc` returns a sample in [-1,1] for
every time, frequency > 0, vibrato rate and depth and `dCustom`, for every
waveform kind other than the analogue saw, the digital saw being taken at a
time that is not negative. -/
theorem C13_osc_in_range {α : Type} [LinearOrderedField α] [FloorRing α]
    (m : CMath α) (hPI : 0 < m.PI)
    (hsin : ∀ x : α, -1 ≤ m.sin x ∧ m.sin x ≤ 1)
    (hasin : ∀ x : α, -(m.PI / 2) ≤ m.asin x ∧ m.asin x ≤ m.PI / 2)
    (hfmod : ∀ x y : α, 0 ≤ x → 0 < y → 0 ≤ m.fmod x y ∧ m.fmod x y < y)
    (hmax : 0 < m.RAND_MAX) (g : RandState) (hg : g 0 ≤ m.RAND_MAX)
    (dTime dHertz : α) (hHz : 0 < dHertz) (nType : Int)
    (dLFOHertz dLFOAmplitude dCustom : α)
    (hkind : nType ≠ 3) (htime : nType = 4 → 0 ≤ dTime) :
    -1 ≤ (osc m dTime dHertz nType dLFOHertz dLFOAmplitude dCustom g).1 ∧
      (osc m dTime dHertz nType dLFOHertz dLFOAmplitude dCustom g).1 ≤ 1 :=
  osc_range m hPI hsin hasin hfmod hmax g hg dTime dHertz nType dLFOHertz dLFOAmplitude
    dCustom hkind (fun h => ⟨htime h, hHz⟩)

/-- C13 as amended, over the reals: the digital saw of frequency 1 at time
1/4, and the triangle of frequency 440 at time -3 with vibrato. -/
theorem C13_osc_in_range_witness :
    (-1 ≤ (osc realMath (1 / 4) 1 4 0 0 50 exampleRand).1 ∧
      (osc realMath (1 / 4) 1 4 0 0 50 exampleRand).1 ≤ 1) ∧
    (-1 ≤ (osc realMath (-3) 440 2 5 0.001 50 exampleRand).1 ∧
      (osc realMath (-3) 440 2 5 0.001 50 exampleRand).1 ≤ 1) :=
  ⟨C13_osc_in_range realMath realMath_PI_pos realMath_sin_range realMath_asin_range
      realMath_fmod_range realMath_RAND_MAX_pos exampleRand (Nat.zero_le _) (1 / 4) 1
      (by norm_num) 4 0 0 50 (by decide) (fun _ => by norm_num),
   C13_osc_in_range realMath realMath_PI_pos realMath_sin_range realMath_asin_range
      realMath_fmod_range realMath_RAND_MAX_pos exampleRand (Nat.zero_le _) (-3) 440
      (by norm_num) 2 5 0.001 50 (by decide) (fun h => absurd h (by decide))⟩

/-- C13 as stated fails, over the reals: the analogue saw with `dCustom = 6`
at frequency 1 and time 1/12 (phase pi/6) returns more than 1, and the
digital saw of frequency 1 at the negative time -1/2 returns -2. -/
theorem C13_counterexample :
    1 < (osc realMath (1 / 12) 1 3 0 0 6 exampleRand).1 ∧
    (osc realMath (-1 / 2) 1 4 0 0 50 exampleRand).1 = -2 ∧
    ¬ (-1 ≤ (osc realMath (-1 / 2) 1 4 0 0 50 exampleRand).1) := by
  refine ⟨analogue_saw_overshoot exampleRand, digital_saw_negative_time exampleRand, ?_⟩
  rw [digital_saw_negative_time exampleRand]
  norm_num

/-- C14 as amended: with the C library functions within their mathematical
ranges (and `PI >= 3`), `rand()` at most `RAND_MAX`, and a render time that
is not before the off time of any released note of the table, the sample
returned by `makeNoise` has magnitude at most 0.51 times the number of notes;
so it is in [-1,1] when the table holds at most one note. -/
theorem C14_sample_bound {α : Type} [LinearOrderedField α] [FloorRing α]
    (m : CMath α) (hPI : 3 ≤ m.PI)
    (hsin : ∀ x : α, -1 ≤ m.sin x ∧ m.sin x ≤ 1)
    (hasin : ∀ x : α, -(m.PI / 2) ≤ m.asin x ∧ m.asin x ≤ m.PI / 2)
    (hmax : 0 < m.RAND_MAX) (g : RandState) (hg : ∀ i, g i ≤ m.RAND_MAX)
    (nChannel : Int) (dTime : α) (vecNotes : List (note α))
    (htime : ∀ n ∈ vecNotes, n.on_ > n.off ∨ n.off ≤ dTime) :
    |(makeNoise m nChannel dTime vecNotes g).1| ≤ 0.51 * (vecNotes.length : α) ∧
    (vecNotes.length ≤ 1 →
      -1 ≤ (makeNoise m nChannel dTime vecNotes g).1 ∧
        (makeNoise m nChannel dTime vecNotes g).1 ≤ 1) := by
  have hs := sumOfVoices_bound m hPI hsin hasin hmax dTime vecNotes g hg htime
  have hb : |(makeNoise m nChannel dTime vecNotes g).1| ≤ 0.51 * (vecNotes.length : α) := by
    rw [makeNoise_sample, abs_mul, abs_of_nonneg (by norm_num : (0 : α) ≤ 0.2)]
    norm_num at hs ⊢
    linarith
  refine ⟨hb, ?_⟩
  intro hlen
  have hl : (vecNotes.length : α) ≤ 1 := by exact_mod_cast hlen
  rw [abs_le] at hb
  norm_num at hb
  constructor <;> linarith [hb.1, hb.2]

/-- C14 as amended, over the reals: one held harmonica note (key 3, pressed
at 1) rendered at time 5/2. -/
theorem C14_sample_bound_witness :
    |(makeNoise realMath 0 (5 / 2)
        [({ id := 3, on_ := 1, off := 0, active := true, channel := 1 } : note ℝ)]
        exampleRand).1|
      ≤ 0.51 * (([({ id := 3, on_ := 1, off := 0, active := true, channel := 1 } : note ℝ)]
          ).length : ℝ) ∧
    (([({ id := 3, on_ := 1, off := 0, active := true, channel := 1 } : note ℝ)]).length ≤ 1 →
      -1 ≤ (makeNoise realMath 0 (5 / 2)
          [({ id := 3, on_ := 1, off := 0, active := true, channel := 1 } : note ℝ)]
          exampleRand).1 ∧
        (makeNoise realMath 0 (5 / 2)
          [({ id := 3, on_ := 1, off := 0, active := true, channel := 1 } : note ℝ)]
          exampleRand).1 ≤ 1) :=
  C14_sample_bound realMath (le_of_lt Real.pi_gt_three) realMath_sin_range realMath_asin_range
    realMath_RAND_MAX_pos exampleRand (fun _ => Nat.zero_le _) 0 (5 / 2) _
    (fun n hn => by
      rw [List.mem_singleton] at hn
      subst hn
      left
      norm_num)

/-- C14 as stated fails, over the reals: for the chord of seven held
harmonica notes an octave apart (ids 3, 15, ..., 75, each inserted by
`noteOn` at time 1), rendered at time 5/2 with `rand()` returning 0,
`makeNoise` returns -1.03075. -/
theorem C14_counterexample :
    noteOn 75 1 (noteOn 63 1 (noteOn 51 1 (noteOn 39 1 (noteOn 27 1 (noteOn 15 1
      (noteOn 3 1 ([] : List (note ℝ)))))))) = exampleChord ∧
    (makeNoise realMath 0 (5 / 2) exampleChord exampleRand).1 = -1.03075 ∧
    ¬ (-1 ≤ (makeNoise realMath 0 (5 / 2) exampleChord exampleRand).1) := by
  refine ⟨?_, chord_sample 0, ?_⟩
  · simp [noteOn, main.pollKey, find_if, note.init, exampleChord]
  · rw [chord_sample 0]
    norm_num

end claims6

/-! ## Rounded arithmetic -/

section rounding_lemmas

theorem amplitude_fl_id {α : Type} [LinearOrderedField α] (e : envelope_adsr α)
    (dTime dTimeOn dTimeOff : α) :
    e.amplitude_fl id dTime dTimeOn dTimeOff = e.amplitude dTime dTimeOn dTimeOff := rfl

theorem roundHalfEven_of_near (x : ℚ) (z : ℤ) (h1 : (z : ℚ) - 1 / 2 < x)
    (h2 : x < (z : ℚ) + 1 / 2) : roundHalfEven x = z := by
  unfold roundHalfEven
  by_cases hz : (z : ℚ) ≤ x
  · have hf : ⌊x⌋ = z := by
      rw [Int.floor_eq_iff]
      exact ⟨hz, by linarith⟩
    rw [hf, if_pos (by linarith)]
  · have hf : ⌊x⌋ = z - 1 := by
      rw [Int.floor_eq_iff]
      push_cast
      exact ⟨by linarith, by linarith [not_le.mp hz]⟩
    rw [hf]
    push_cast
    rw [if_neg (by linarith), if_pos (by linarith)]
    ring

theorem binary64_of_abs (x : ℚ) (e z : ℤ) (hlo : (2 : ℚ) ^ e ≤ |x|)
    (hhi : |x| < (2 : ℚ) ^ (e + 1)) (h1 : (z : ℚ) - 1 / 2 < x / 2 ^ (e - 52))
    (h2 : x / 2 ^ (e - 52) < (z : ℚ) + 1 / 2) :
    binary64 x = (z : ℚ) * 2 ^ (e - 52) := by
  have hpos : (0 : ℚ) < |x| := lt_of_lt_of_le (by positivity) hlo
  have hx : x ≠ 0 := abs_pos.mp hpos
  have hlog : Int.log 2 |x| = e := by
    apply le_antisymm
    · have := (Int.lt_zpow_iff_log_lt (by norm_num : 1 < 2) hpos).mp (by exact_mod_cast hhi)
      omega
    · exact (Int.zpow_le_iff_le_log (by norm_num : 1 < 2) hpos).mp (by exact_mod_cast hlo)
  unfold binary64
  rw [if_neg hx, hlog, roundHalfEven_of_near _ z h1 h2]

/-- Evaluation of `binary64` at a positive number: `e` is the exponent and
`z` the 53-bit significand of the result. -/
theorem binary64_pos (x : ℚ) (e z : ℤ) (hlo : (2 : ℚ) ^ e ≤ x) (hhi : x < (2 : ℚ) ^ (e + 1))
    (h1 : (z : ℚ) - 1 / 2 < x / 2 ^ (e - 52)) (h2 : x / 2 ^ (e - 52) < (z : ℚ) + 1 / 2) :
    binary64 x = (z : ℚ) * 2 ^ (e - 52) := by
  have hx : 0 < x := lt_of_lt_of_le (by positivity) hlo
  exact binary64_of_abs x e z (by rwa [abs_of_pos hx]) (by rwa [abs_of_pos hx]) h1 h2

/-- Evaluation of `binary64` at a negative number. -/
theorem binary64_neg (x : ℚ) (e z : ℤ) (hlo : (2 : ℚ) ^ e ≤ -x) (hhi : -x < (2 : ℚ) ^ (e + 1))
    (h1 : (z : ℚ) - 1 / 2 < x / 2 ^ (e - 52)) (h2 : x / 2 ^ (e - 52) < (z : ℚ) + 1 / 2) :
    binary64 x = (z : ℚ) * 2 ^ (e - 52) := by
  have hx : x < 0 := by
    have : (0 : ℚ) < -x := lt_of_lt_of_le (by positivity) hlo
    linarith
  exact binary64_of_abs x e z (by rwa [abs_of_neg hx]) (by rwa [abs_of_neg hx]) h1 h2

theorem binary64_0_01 : binary64 (1 / 100) = d0_01 := by
  rw [binary64_pos _ (-7) 5764607523034235 (by norm_num) (by norm_num) (by norm_num)
    (by norm_num)]
  norm_num [d0_01]

theorem binary64_0_12 : binary64 (12 / 100) = d0_12 := by
  rw [binary64_pos _ (-4) 8646911284551352 (by norm_num) (by norm_num) (by norm_num)
    (by norm_num)]
  norm_num [d0_12]

theorem binary64_0_13 : binary64 (13 / 100) = d0_13 := by
  rw [binary64_pos _ (-3) 4683743612465316 (by norm_num) (by norm_num) (by norm_num)
    (by norm_num)]
  norm_num [d0_13]

theorem binary64_attack_plus_decay : binary64 (d0_01 + d0_12) = d0_13 := by
  rw [binary64_pos _ (-3) 4683743612465316 (by norm_num [d0_01, d0_12])
    (by norm_num [d0_01, d0_12]) (by norm_num [d0_01, d0_12]) (by norm_num [d0_01, d0_12])]
  norm_num [d0_13]

theorem binary64_life_minus_attack :
    binary64 (d0_13 - d0_01) = 8646911284551353 / 72057594037927936 := by
  rw [binary64_pos _ (-4) 8646911284551353 (by norm_num [d0_01, d0_13])
    (by norm_num [d0_01, d0_13]) (by norm_num [d0_01, d0_13]) (by norm_num [d0_01, d0_13])]
  norm_num

theorem binary64_decay_ratio :
    binary64 (8646911284551353 / 72057594037927936 / d0_12)
      = 4503599627370497 / 4503599627370496 := by
  rw [binary64_pos _ 0 4503599627370497 (by norm_num [d0_12])
    (by norm_num [d0_12]) (by norm_num [d0_12]) (by norm_num [d0_12])]
  norm_num

end rounding_lemmas

section rounding_examples

end rounding_examples

section claims_revised

/-- C1: in a note table whose notes are all active, the table left by
`makeNoise` is the old table with exactly those notes erased whose channel is
1, 2 or 3, whose envelope (of that channel's instrument) has amplitude 0 at
the render time (the instrument reported `bNoteFinished`), and which have
`off > on`; every other note stays, in its old place in the order.  So a
note of the table is absent afterwards exactly when it meets that condition. -/
theorem C1_pruned_iff_finished_and_released {α : Type} [LinearOrderedField α] [FloorRing α]
    (m : CMath α) (nChannel : Int) (dTime : α)
    (vecNotes : List (note α)) (g : RandState)
    (hactive : ∀ x ∈ vecNotes, x.active = true) :
    (makeNoise m nChannel dTime vecNotes g).2.1 =
      vecNotes.filter (fun n => decide (¬
        (((n.channel = 1 ∧ (harmonica : instrument α).env.amplitude dTime n.on_ n.off = 0) ∨
          (n.channel = 2 ∧ (bell : instrument α).env.amplitude dTime n.on_ n.off = 0) ∨
          (n.channel = 3 ∧ (piano : instrument α).env.amplitude dTime n.on_ n.off = 0)) ∧
         n.off > n.on_))) ∧
    ∀ n ∈ vecNotes, (n ∉ (makeNoise m nChannel dTime vecNotes g).2.1 ↔
      (((n.channel = 1 ∧ (harmonica : instrument α).env.amplitude dTime n.on_ n.off = 0) ∨
        (n.channel = 2 ∧ (bell : instrument α).env.amplitude dTime n.on_ n.off = 0) ∨
        (n.channel = 3 ∧ (piano : instrument α).env.amplitude dTime n.on_ n.off = 0)) ∧
       n.off > n.on_)) := by
  constructor
  · rw [makeNoise_notes, filter_markFinished]
    apply List.filter_congr
    intro n hn
    rw [hactive n hn, Bool.true_and, Bool.eq_iff_iff, decide_eq_true_iff, ← noteFinished_iff]
    cases hf : noteFinished dTime n <;> simp
  · intro n hn
    rw [mem_makeNoise_iff, ← noteFinished_iff]
    constructor
    · intro h
      by_contra hc
      exact h ⟨hn, hactive n hn, hc⟩
    · rintro hc ⟨_, _, h⟩
      exact h hc

/-- C1 at a concrete table: of the released harmonica note of key 0 (on 1,
off 2) and the held note of key 1, a render at time 7 leaves only the held
note, the envelope of the released one having reached 0. -/
theorem C1_pruned_iff_finished_and_released_witness :
    (makeNoise exampleMath 0 7 [exampleReleased, exampleHeld] exampleRand).2.1 = [exampleHeld] ∧
    ((makeNoise exampleMath 0 7 [exampleReleased, exampleHeld] exampleRand).2.1 =
      [exampleReleased, exampleHeld].filter (fun n => decide (¬
        (((n.channel = 1 ∧ (harmonica : instrument ℚ).env.amplitude 7 n.on_ n.off = 0) ∨
          (n.channel = 2 ∧ (bell : instrument ℚ).env.amplitude 7 n.on_ n.off = 0) ∨
          (n.channel = 3 ∧ (piano : instrument ℚ).env.amplitude 7 n.on_ n.off = 0)) ∧
         n.off > n.on_))) ∧
    ∀ n ∈ [exampleReleased, exampleHeld],
      (n ∉ (makeNoise exampleMath 0 7 [exampleReleased, exampleHeld] exampleRand).2.1 ↔
      (((n.channel = 1 ∧ (harmonica : instrument ℚ).env.amplitude 7 n.on_ n.off = 0) ∨
        (n.channel = 2 ∧ (bell : instrument ℚ).env.amplitude 7 n.on_ n.off = 0) ∨
        (n.channel = 3 ∧ (piano : instrument ℚ).env.amplitude 7 n.on_ n.off = 0)) ∧
       n.off > n.on_))) := by
  have h := C1_pruned_iff_finished_and_released exampleMath 0 7 [exampleReleased, exampleHeld]
    exampleRand (by simp [exampleReleased, exampleHeld])
  refine ⟨?_, h⟩
  rw [h.1]
  have a1 : (harmonica : instrument ℚ).env.amplitude 7 exampleReleased.on_ exampleReleased.off
      = 0 := by
    norm_num [envelope_adsr.amplitude, harmonica, envelope_adsr.init, exampleReleased]
  have c1 : exampleReleased.channel = 1 := rfl
  have o1 : exampleReleased.off > exampleReleased.on_ := by norm_num [exampleReleased]
  have o2 : ¬ exampleHeld.off > exampleHeld.on_ := by norm_num [exampleHeld]
  simp [List.filter_cons, a1, c1, o1, o2]

/-- C11 as amended: whatever the rounding `fl` of the arithmetic (none, or
that of doubles), for sustain >= 0 and a held note (on > off) the amplitude
is exactly the sustain amplitude at every time whose life time `t - on`, as
computed, is greater than `attack + decay`, as computed. -/
theorem C11_sustain_beyond_attack_plus_decay {α : Type} [LinearOrderedField α]
    (fl : α → α) (e : envelope_adsr α) (dTime dTimeOn dTimeOff : α)
    (hU : 0 ≤ e.dSustainAmplitude) (h : dTimeOn > dTimeOff)
    (hlife : fl (dTime - dTimeOn) > fl (e.dAttackTime + e.dDecayTime)) :
    e.amplitude_fl fl dTime dTimeOn dTimeOff = e.dSustainAmplitude := by
  simp only [envelope_adsr.amplitude_fl, if_pos h, if_pos hlife]
  split_ifs with hc
  · exact le_antisymm hU hc
  · rfl

/-- C11 as amended, in doubles: attack 0.01, decay 0.12, sustain 0.5, a note
pressed at 0.13 and held, at time 1. -/
theorem C11_sustain_beyond_attack_plus_decay_witness :
    binary64 (1 - d0_13) > binary64 (d0_01 + d0_12) ∧
    (exampleRounding (1 / 2)).amplitude_fl binary64 1 d0_13 0
      = (exampleRounding (1 / 2)).dSustainAmplitude := by
  have hl : binary64 (1 - d0_13) = 7836263351624663 / 9007199254740992 := by
    rw [binary64_pos _ (-1) 7836263351624663 (by norm_num [d0_13]) (by norm_num [d0_13])
      (by norm_num [d0_13]) (by norm_num [d0_13])]
    norm_num
  have hgt : binary64 (1 - d0_13) > binary64 (d0_01 + d0_12) := by
    rw [hl, binary64_attack_plus_decay]
    norm_num [d0_13]
  exact ⟨hgt, C11_sustain_beyond_attack_plus_decay binary64 (exampleRounding (1 / 2)) 1 d0_13 0
    (by norm_num [exampleRounding]) (by norm_num [d0_13]) hgt⟩

/-- C11 as stated fails in doubles: attack 0.01, decay 0.12, sustain 0.5,
start 1, a note pressed at 0.13 and held (off 0), at time 0.26.  The time is
not before on + attack + decay, the computed life time 0.13 equals the
computed attack + decay, the decay line is evaluated, and the amplitude is
0.5 - 2^-53 (0.4999999999999999), not the sustain amplitude 0.5. -/
theorem C11_counterexample :
    (binary64 (1 / 100) = d0_01 ∧ binary64 (12 / 100) = d0_12 ∧ binary64 (13 / 100) = d0_13 ∧
      binary64 (26 / 100) = 2 * d0_13) ∧
    (0 < (exampleRounding (1 / 2)).dAttackTime ∧ 0 < (exampleRounding (1 / 2)).dDecayTime ∧
      0 ≤ (exampleRounding (1 / 2)).dSustainAmplitude ∧ d0_13 > (0 : ℚ)) ∧
    d0_13 + (exampleRounding (1 / 2)).dAttackTime + (exampleRounding (1 / 2)).dDecayTime
      ≤ 2 * d0_13 ∧
    binary64 (binary64 (d0_13 + d0_01) + d0_12) ≤ 2 * d0_13 ∧
    (exampleRounding (1 / 2)).amplitude_fl binary64 (2 * d0_13) d0_13 0
      = 4503599627370495 / 9007199254740992 ∧
    (exampleRounding (1 / 2)).amplitude_fl binary64 (2 * d0_13) d0_13 0
      ≠ (exampleRounding (1 / 2)).dSustainAmplitude := by
  have h26 : binary64 (26 / 100) = 2 * d0_13 := by
    rw [binary64_pos _ (-2) 4683743612465316 (by norm_num) (by norm_num) (by norm_num)
      (by norm_num)]
    norm_num [d0_13]
  have hsum1 : binary64 (d0_13 + d0_01) = 1261007895663739 / 9007199254740992 := by
    rw [binary64_pos _ (-3) 5044031582654956 (by norm_num [d0_13, d0_01])
      (by norm_num [d0_13, d0_01]) (by norm_num [d0_13, d0_01]) (by norm_num [d0_13, d0_01])]
    norm_num
  have hsum2 : binary64 (1261007895663739 / 9007199254740992 + d0_12)
      = 1170935903116329 / 4503599627370496 := by
    rw [binary64_pos _ (-2) 4683743612465316 (by norm_num [d0_12])
      (by norm_num [d0_12]) (by norm_num [d0_12]) (by norm_num [d0_12])]
    norm_num
  have hlife : binary64 (2 * d0_13 - d0_13) = d0_13 := by
    rw [binary64_pos _ (-3) 4683743612465316 (by norm_num [d0_13])
      (by norm_num [d0_13]) (by norm_num [d0_13]) (by norm_num [d0_13])]
    norm_num [d0_13]
  have h1 : binary64 (1 / 2 - 1) = -1 / 2 := by
    rw [binary64_neg _ (-1) (-4503599627370496) (by norm_num) (by norm_num) (by norm_num)
      (by norm_num)]
    norm_num
  have h2 : binary64 (4503599627370497 / 4503599627370496 * (-1 / 2))
      = -4503599627370497 / 9007199254740992 := by
    rw [binary64_neg _ (-1) (-4503599627370497) (by norm_num) (by norm_num) (by norm_num)
      (by norm_num)]
    norm_num
  have h3 : binary64 (-4503599627370497 / 9007199254740992 + 1)
      = 4503599627370495 / 9007199254740992 := by
    rw [binary64_pos _ (-2) 9007199254740990 (by norm_num) (by norm_num) (by norm_num)
      (by norm_num)]
    norm_num
  have c0 : d0_13 > (0 : ℚ) := by norm_num [d0_13]
  have c1 : ¬ (d0_13 ≤ d0_01) := by norm_num [d0_13, d0_01]
  have c2 : d0_13 > d0_01 ∧ d0_13 ≤ d0_13 := ⟨by norm_num [d0_13, d0_01], le_refl _⟩
  have c3 : ¬ (d0_13 > d0_13) := lt_irrefl _
  have c4 : ¬ ((4503599627370495 / 9007199254740992 : ℚ) ≤ 0) := by norm_num
  have hval : (exampleRounding (1 / 2)).amplitude_fl binary64 (2 * d0_13) d0_13 0
      = 4503599627370495 / 9007199254740992 := by
    simp only [envelope_adsr.amplitude_fl, exampleRounding, if_pos c0, hlife,
      binary64_attack_plus_decay, if_neg c1, if_pos c2, if_neg c3, binary64_life_minus_attack,
      binary64_decay_ratio, h1, h2, h3, if_neg c4]
  refine ⟨⟨binary64_0_01, binary64_0_12, binary64_0_13, h26⟩, ?_, ?_, ?_, hval, ?_⟩
  · norm_num [exampleRounding, d0_01, d0_12, d0_13]
  · norm_num [exampleRounding, d0_01, d0_12, d0_13]
  · rw [hsum1, hsum2]
    norm_num [d0_13]
  · rw [hval]
    norm_num [exampleRounding]

end claims_revised

end synthesizer
